import Mathlib

set_option maxRecDepth 8000

/-!
Verification of the validana-core execution engine against its specification.

The development shallowly embeds the TypeScript sources of the repository:
queries are lists of characters, buffers are lists of natural numbers below
256, and fallible constructors return `Except String`.  External primitives
that are not part of the repository sources (the SHA hash family behind
`Crypto.hash256`, the secp256k1 curve check behind `PublicKey.isValidPublic`
and the host JSON parser) are threaded through an `Ext` record so that every
theorem holds for all implementations of those primitives.
-/

namespace Validana

/-! ## Character helpers (JavaScript string semantics) -/

/-- ASCII lower casing, as applied by a case-insensitive regex to ASCII
letters (the regexes of the source have no unicode flag). -/
def lowerChar (c : Char) : Char :=
  if 65 ≤ c.toNat ∧ c.toNat ≤ 90 then Char.ofNat (c.toNat + 32) else c

/-- Lower case a whole string. -/
def lowerStr (l : List Char) : List Char := l.map lowerChar

/-- Modelled from the spec: the JavaScript whitespace class used by
`String.prototype.trim` and by the regex class `\s` (the common members;
the queries of the repository use only space, tab and line breaks). -/
def isJsSpace (c : Char) : Bool :=
  c == ' ' || c == '\t' || c == '\n' || c == '\r' ||
  c.toNat == 11 || c.toNat == 12 || c.toNat == 160

/-- `String.prototype.trim`: remove whitespace from both ends. -/
def trimJs (l : List Char) : List Char :=
  ((l.dropWhile isJsSpace).reverse.dropWhile isJsSpace).reverse

/-! ## Basic.querySC : query normalisation and validation (basic.ts)

`querySC` first trims the query and appends a `;` when missing, then
rejects multi-statement queries, comments and time requests with
`search(/;|--|localtime|current_(?:date|time)/i) !== query.length - 1`,
then checks the first keyword against a whitelist and, for the keyword
check only, consults `Basic.isSpecialContract`. -/

/-- The literals of the regex `/;|--|localtime|current_(?:date|time)/i`,
already in lower case. -/
def multiPats : List (List Char) :=
  [[';'], ['-', '-'], "localtime".data, "current_date".data, "current_time".data]

/-- Does one of the alternatives of the multi-statement regex match at the
start of `s` (case-insensitively)? -/
def matchSome (s : List Char) : Bool :=
  multiPats.any (fun p => p.isPrefixOf (lowerStr s))

/-- `String.prototype.search` for the multi-statement regex: index of the
first position where an alternative matches, `none` when there is no match. -/
def searchAux : List Char → Option Nat
  | [] => none
  | c :: rest => if matchSome (c :: rest) then some 0 else (searchAux rest).map (· + 1)

/-- The normalisation performed at the start of `querySC`:
trim, then append a `;` unless the query already ends with one. -/
def normalizeQuery (raw : List Char) : List Char :=
  let t := trimJs raw
  if t.getLast? = some ';' then t else t ++ [';']

/-- `lit.isPrefixOf s` returning the rest of `s` on success. -/
def dropLit? (lit s : List Char) : Option (List Char) :=
  if lit.isPrefixOf s then some (s.drop lit.length) else none

/-- The regex fragment `\s+` followed by a check on the rest: at least one
whitespace character, then (greedily) skip whitespace.  The continuations
used below never start with whitespace, so the greedy match is exact. -/
def wsThen (k : List Char → Bool) (s : List Char) : Bool :=
  match s with
  | [] => false
  | c :: rest => isJsSpace c && k (rest.dropWhile isJsSpace)

/-- `\s+` then one of the given literal alternatives. -/
def wsThenAny (pats : List (List Char)) (s : List Char) : Bool :=
  wsThen (fun r => pats.any (fun p => p.isPrefixOf r)) s

/-- Does the whitelist regex
`/^(?:alter\s+(?:index|table|type)|create\s+(?:(?:unique\s+)?index|table|type)|delete|drop\s+(?:index|table|type)|insert|select|update|with)/i`
match at position 0?  The argument is the already lower-cased query. -/
def actionOk (w : List Char) : Bool :=
  (match dropLit? "alter".data w with
   | some r => wsThenAny ["index".data, "table".data, "type".data] r
   | none => false) ||
  (match dropLit? "create".data w with
   | some r => wsThen (fun r2 =>
       (match dropLit? "unique".data r2 with
        | some r3 => wsThenAny ["index".data] r3
        | none => false) ||
       "index".data.isPrefixOf r2 || "table".data.isPrefixOf r2 || "type".data.isPrefixOf r2) r
   | none => false) ||
  "delete".data.isPrefixOf w ||
  (match dropLit? "drop".data w with
   | some r => wsThenAny ["index".data, "table".data, "type".data] r
   | none => false) ||
  "insert".data.isPrefixOf w || "select".data.isPrefixOf w ||
  "update".data.isPrefixOf w || "with".data.isPrefixOf w

/-- Does the case-sensitive regex
`/^SET LOCAL (?:ROLE smartcontract(?:manager)?;|statement_timeout = .*)|SHOW statement_timeout;$/`
match at position 0?  The first top-level alternative is anchored with `^`
and `.*` imposes nothing, so it is a prefix test; the second alternative
matches at position 0 exactly when the whole query is the literal. -/
def specialOkAt (q : List Char) : Bool :=
  "SET LOCAL ROLE smartcontract;".data.isPrefixOf q ||
  "SET LOCAL ROLE smartcontractmanager;".data.isPrefixOf q ||
  "SET LOCAL statement_timeout = ".data.isPrefixOf q ||
  q == "SHOW statement_timeout;".data

/-- The validation phase of `Basic.querySC` (basic.ts): normalise the query,
reject multi-statement queries, comments and time requests, then check the
keyword whitelist where `isSpecial` is the value of `Basic.isSpecialContract`.
On success the normalised query is returned; on failure the message passed
to `Basic.invalidate` (which is also the thrown message for the first check)
is returned. -/
def querySCCheck (isSpecial : Bool) (raw : List Char) : Except String (List Char) :=
  let q := normalizeQuery raw
  if searchAux q ≠ some (q.length - 1) then
    .error "Invalid query: multiple queries, comments or time request."
  else if ¬ actionOk (lowerStr q) then
    if ¬ isSpecial ∧ ¬ specialOkAt q then
      .error "Invalid query: action not allowed."
    else
      .ok q
  else
    .ok q

/-! ## Byte buffers and external primitives

Buffers are lists of natural numbers (each below 256 in practice; the
numeric codecs only ever read values, so no normalisation is needed). -/

/-- Little-endian value of a byte list. -/
def leVal : List Nat → Nat
  | [] => 0
  | b :: rest => b + 256 * leVal rest

/-- Little-endian encoding of `n` into `k` bytes.  Modelled from the spec:
the encoders of `Crypto` write little-endian. -/
def leBytes : Nat → Nat → List Nat
  | 0, _ => []
  | k + 1, n => (n % 256) :: leBytes k (n / 256)

/-- The primitives used by the repository that are not part of its sources:
the double SHA-256 behind `Crypto.hash256`, the secp256k1 curve membership
check performed by the node crypto library inside
`PublicKey.isValidPublic`, and the host JSON parser used for the version 1
`json` payload type.  All theorems hold for every such record. -/
structure Ext where
  hash256 : List Nat → List Nat
  validPoint : List Nat → Bool
  jsonParseOk : String → Bool

/-! ## PublicKey (key.ts) -/

namespace PublicKey

/-- `PublicKey.isValidPublic`: a compressed 33-byte key whose first byte is
2 or 3 and which passes the curve validation of the host crypto library. -/
def isValidPublic (ext : Ext) (publicKey : List Nat) : Bool :=
  publicKey.length == 33 && (publicKey.getD 0 0 == 2 || publicKey.getD 0 0 == 3)
    && ext.validPoint publicKey

end PublicKey

/-! ## Transaction (transaction.ts) -/

structure Transaction where
  data : List Nat
  version : Nat
  validTill : Nat
  totalLength : Nat
  payloadLength : Nat
deriving DecidableEq

namespace Transaction

/-- The length of a transaction with an empty payload. -/
def emptyLength : Nat := 154

/-- The maximum payload length. -/
def maxPayloadLength : Nat := 100000

/-- The constructor `new Transaction(buffer)`: read the version byte at
offset 4 and the 8 little-endian `validTill` bytes at offset 53, then check
the version, the `validTill` range (`Number.isSafeInteger`), the minimum
length, the payload bound and the public key.  Reads past the end of the
buffer throw, as do the slice decoders of `Crypto` on short input. -/
def fromBuffer (ext : Ext) (data : List Nat) : Except String Transaction :=
  if data.length < 5 then .error "Index out of range."
  else
    let version := data.getD 4 0
    if data.length < 61 then .error "Index out of range."
    else
      let validTill := leVal ((data.drop 53).take 8)
      if version ≠ 1 then .error "Unsupported version."
      else if 2 ^ 53 - 1 < validTill then .error "Invalid valid till."
      else
        let totalLength := data.length - 4
        let payloadLength := totalLength - emptyLength
        if totalLength < emptyLength then .error "Unable to construct transaction."
        else if maxPayloadLength < payloadLength then .error "Payload too large."
        else if ¬ PublicKey.isValidPublic ext (data.drop (data.length - 33)) then
          .error "Invalid public key."
        else .ok ⟨data, version, validTill, totalLength, payloadLength⟩

/-- `Transaction.merge`: concatenate the data buffers. -/
def merge (transactions : List Transaction) : List Nat :=
  (transactions.map data).flatten

/-- `Transaction.unmerge`: repeatedly read the leading `u32` length, check
that the record fits, construct the transaction from the record and
continue behind it; any remainder of one to three bytes is an error. -/
def unmerge (ext : Ext) (transactions : List Nat) : Except String (List Transaction) :=
  if transactions.length < 4 then
    if transactions.length = 0 then .ok []
    else .error "Length of remaining data does not match a full transaction."
  else
    let totalTransactionLength := leVal (transactions.take 4)
    if transactions.length < 4 + totalTransactionLength then
      .error "Length of next transaction exceeds total length of data."
    else
      match fromBuffer ext (transactions.take (4 + totalTransactionLength)) with
      | .error e => .error e
      | .ok t =>
        match unmerge ext (transactions.drop (4 + totalTransactionLength)) with
        | .error e => .error e
        | .ok rest => .ok (t :: rest)
termination_by transactions.length
decreasing_by simp [List.length_drop]; omega

end Transaction

/-! ## Block (block.ts) -/

structure Block where
  data : List Nat
  version : Nat
  totalLength : Nat
  id : Nat
  processedTs : Nat
  transactionsAmount : Nat
deriving DecidableEq

/-- The database row from which a block can be constructed. -/
structure DBBlock where
  block_id : Nat
  previous_block_hash : List Nat
  processed_ts : Nat
  transactions : List Nat
  version : Nat
  signature : List Nat

namespace Block

/-- The length of a block with no transactions. -/
def emptyLength : Nat := 113

/-- The transaction walk of the constructor, with an explicit fuel that
bounds the number of iterations (each iteration advances the location by at
least 4, so any fuel of at least `data.length - 64 - location` is exact;
with fuel 0 the loop guard can only be false in that regime and the
returned pair is the same). -/
def txWalkGo (data : List Nat) : Nat → Nat → Nat × Nat
  | 0, location => (location, 0)
  | fuel + 1, location =>
    if location + 4 ≤ data.length - 64 then
      let next := location + leVal ((data.drop location).take 4) + 4
      let w := txWalkGo data fuel next
      (w.1, w.2 + 1)
    else (location, 0)

/-- The transaction walk of the constructor: starting at `location`,
advance by the `u32` length read at the current location plus 4 while at
least 4 bytes remain before the 64 signature bytes; return the final
location and the number of records walked. -/
def txWalk (data : List Nat) (location : Nat) : Nat × Nat :=
  txWalkGo data (data.length - location) location

/-- The checks shared by the buffer and the database branch of the block
constructor: version, minimum length, `Number.isSafeInteger` ranges of the
id and the timestamp, and the transaction walk ending exactly at the 64
signature bytes. -/
def finishChecks (data : List Nat) (version id processedTs : Nat) : Except String Block :=
  if version ≠ 1 then .error "Unsupported version."
  else
    let totalLength := data.length - 4
    if totalLength < emptyLength then .error "Unable to construct block."
    else if 2 ^ 53 - 1 < id then .error "Invalid blockId."
    else if 2 ^ 53 - 1 < processedTs then .error "Invalid block processed timestamp"
    else
      let w := txWalk data 53
      if w.1 ≠ data.length - 64 then .error "Invalid format for transactions inside block."
      else .ok ⟨data, version, totalLength, id, processedTs, w.2⟩

/-- The constructor `new Block(buffer)`: read the embedded total length
(overwritten below, exactly as in the source), the version byte, the id and
the timestamp, then run the shared checks. -/
def fromBuffer (data : List Nat) : Except String Block :=
  if data.length < 4 then .error "Index out of range."
  else
    let _embedded := leVal (data.take 4)
    if data.length < 13 then .error "Index out of range."
    else
      let version := data.getD 4 0
      let id := leVal ((data.drop 5).take 8)
      if data.length < 53 then .error "Index out of range."
      else
        let processedTs := leVal ((data.drop 45).take 8)
        finishChecks data version id processedTs

/-- The buffer assembled by the database branch of the block constructor:
`u32` total length, the version byte 1, the id, the previous block hash,
the timestamp, the transactions and the signature. -/
def assembleDB (b : DBBlock) : List Nat :=
  leBytes 4 (b.transactions.length + emptyLength) ++ [1] ++ leBytes 8 b.block_id
    ++ b.previous_block_hash ++ leBytes 8 b.processed_ts ++ b.transactions ++ b.signature

/-- The constructor `new Block(dbBlock)`: encode the fields (the numeric
encoders of `Crypto` reject out-of-range values) and run the shared
checks with the version taken from the record. -/
def fromDB (b : DBBlock) : Except String Block :=
  if 2 ^ 32 ≤ b.transactions.length + emptyLength then .error "Number out of range."
  else if 2 ^ 53 - 1 < b.block_id then .error "Number out of range."
  else if 2 ^ 53 - 1 < b.processed_ts then .error "Number out of range."
  else finishChecks (assembleDB b) b.version b.block_id b.processed_ts

/-- `Block.merge`: concatenate the data buffers. -/
def merge (blocks : List Block) : List Nat :=
  (blocks.map data).flatten

/-- `Block.unmerge`, identical in structure to `Transaction.unmerge`. -/
def unmerge (blocks : List Nat) : Except String (List Block) :=
  if blocks.length < 4 then
    if blocks.length = 0 then .ok []
    else .error "Length of remaining data does not match a full block."
  else
    let totalBlockLength := leVal (blocks.take 4)
    if blocks.length < 4 + totalBlockLength then
      .error "Length of next block exceeds total length of data."
    else
      match fromBuffer (blocks.take (4 + totalBlockLength)) with
      | .error e => .error e
      | .ok b =>
        match unmerge (blocks.drop (4 + totalBlockLength)) with
        | .error e => .error e
        | .ok rest => .ok (b :: rest)
termination_by blocks.length
decreasing_by simp [List.length_drop]; omega

/-- `Block.getPreviousBlockHash`: bytes 13 to 45 of the data. -/
def getPreviousBlockHash (b : Block) : List Nat :=
  (b.data.drop 13).take 32

/-- `Block.getHash`: the double SHA-256 of the sign prefix followed by the
data without its leading length field and trailing signature. -/
def getHash (ext : Ext) (sp : List Nat) (b : Block) : List Nat :=
  ext.hash256 (sp ++ (b.data.take (b.data.length - 64)).drop 4)

/-- `Block.verifyWithPreviousBlock`: for a defined previous block require
the next id and compare hash and timestamps, throwing on an id mismatch;
for an undefined previous block require id 0 and an all-zero previous
block hash, throwing on a nonzero id. -/
def verifyWithPreviousBlock (ext : Ext) (sp : List Nat) (b : Block) (previousBlock : Option Block) :
    Except String Bool :=
  match previousBlock with
  | some p =>
    if b.id = p.id + 1 then
      .ok (decide (getPreviousBlockHash b = getHash ext sp p) && decide (p.processedTs < b.processedTs))
    else .error "Given previous block is not the previous block."
  | none =>
    if b.id = 0 then .ok (decide (getPreviousBlockHash b = List.replicate 32 0))
    else .error "Given previous block is not the previous block."

end Block

/-! ### Properties of the multi-statement search -/

theorem searchAux_eq_some {l : List Char} {i : Nat} (h : searchAux l = some i) :
    matchSome (l.drop i) = true ∧ ∀ j, j < i → matchSome (l.drop j) = false := by
  induction l generalizing i with
  | nil => simp [searchAux] at h
  | cons c rest ih =>
    unfold searchAux at h
    by_cases hm : matchSome (c :: rest) = true
    · simp [hm] at h
      subst h
      exact ⟨hm, fun j hj => absurd hj (Nat.not_lt_zero j)⟩
    · rw [if_neg hm] at h
      obtain ⟨i', hi', rfl⟩ := Option.map_eq_some'.mp h
      obtain ⟨h1, h2⟩ := ih hi'
      refine ⟨h1, fun j hj => ?_⟩
      match j with
      | 0 => simpa using eq_false_of_ne_true hm
      | j' + 1 => exact h2 j' (Nat.lt_of_succ_lt_succ hj)

theorem searchAux_le_of_match {l : List Char} {i : Nat}
    (h : matchSome (l.drop i) = true) : ∃ j, j ≤ i ∧ searchAux l = some j := by
  induction l generalizing i with
  | nil => simp [List.drop_nil, matchSome, multiPats, lowerStr] at h
  | cons c rest ih =>
    by_cases hm : matchSome (c :: rest) = true
    · exact ⟨0, Nat.zero_le i, by simp [searchAux, hm]⟩
    · match i with
      | 0 => exact absurd h hm
      | i' + 1 =>
        obtain ⟨j, hj, hsearch⟩ := ih (by simpa using h)
        exact ⟨j + 1, Nat.succ_le_succ hj, by simp [searchAux, hm, hsearch]⟩

theorem drop_length_sub_one {l : List Char} {c : Char} (h : l.getLast? = some c) :
    l.drop (l.length - 1) = [c] := by
  induction l with
  | nil => simp at h
  | cons a rest ih =>
    match rest, h with
    | [], h => simp_all
    | b :: t, h =>
      rw [List.getLast?_cons_cons] at h
      have := ih h
      simpa [List.length_cons] using this

theorem normalizeQuery_getLast (raw : List Char) :
    (normalizeQuery raw).getLast? = some ';' := by
  unfold normalizeQuery
  by_cases h : (trimJs raw).getLast? = some ';'
  · simp [h]
  · simp [h]

theorem char_toNat_ofNat {n : Nat} (h : n.isValidChar) : (Char.ofNat n).toNat = n := by
  unfold Char.ofNat
  rw [dif_pos h]
  rfl

/-- Lower casing moves uppercase letters out of the symbol range: a character
that lower-cases to a symbol below code 65 was that symbol already. -/
theorem lowerChar_eq_low {c d : Char} (hd : d.toNat < 65) (h : lowerChar c = d) : c = d := by
  unfold lowerChar at h
  split at h
  · next hc =>
    have hv : (c.toNat + 32).isValidChar := Or.inl (by omega)
    have := char_toNat_ofNat hv
    rw [h] at this
    omega
  · exact h

/-- Claim C1 (divergence witness): the exception for the reserved
create/delete contract in `querySC` is tested the wrong way round.  A
special contract may execute a query with an arbitrary first keyword, and a
transaction that is not the reserved create/delete contract may execute the
role and timeout statements, both contrary to the specification and to the
comment in the source. -/
theorem querySC_keyword_exception_inverted :
    querySCCheck true "FOOBAR;".data = .ok "FOOBAR;".data
    ∧ querySCCheck false "SET LOCAL ROLE smartcontractmanager;".data
        = .ok "SET LOCAL ROLE smartcontractmanager;".data
    ∧ querySCCheck false "SHOW statement_timeout;".data
        = .ok "SHOW statement_timeout;".data :=
  ⟨rfl, rfl, rfl⟩

/-- Claim C2: every query passed to `querySC` is first trimmed and a trailing
semicolon appended when missing, and the call is rejected with the exact
message about multiple queries, comments or time requests precisely when the
normalised query contains a `;` before its final position, the comment
marker `--`, or one of `localtime`, `current_date`, `current_time`
case-insensitively. -/
theorem querySC_multi_reject_iff (s : Bool) (raw q : List Char) (hq : q = normalizeQuery raw) :
    querySCCheck s raw =
        .error "Invalid query: multiple queries, comments or time request."
      ↔ ((∃ i, i < q.length - 1 ∧ q[i]? = some ';')
          ∨ (∃ i, ['-', '-'] <+: q.drop i)
          ∨ (∃ i, "localtime".data <+: lowerStr (q.drop i))
          ∨ (∃ i, "current_date".data <+: lowerStr (q.drop i))
          ∨ (∃ i, "current_time".data <+: lowerStr (q.drop i))) := by
  have hlast : q.getLast? = some ';' := hq ▸ normalizeQuery_getLast raw
  have hdrop : q.drop (q.length - 1) = [';'] := drop_length_sub_one hlast
  have hmlast : matchSome (q.drop (q.length - 1)) = true := by rw [hdrop]; rfl
  obtain ⟨j0, hj0le, hsearch0⟩ := searchAux_le_of_match hmlast
  have lhs_iff : (querySCCheck s raw =
      .error "Invalid query: multiple queries, comments or time request.")
      ↔ searchAux q ≠ some (q.length - 1) := by
    unfold querySCCheck
    rw [← hq]
    by_cases h : searchAux q ≠ some (q.length - 1)
    · simp [h]
    · simp only [h, if_false, ne_eq, not_not]
      simp at h
      simp [h]
      split_ifs <;> simp
  rw [lhs_iff]
  constructor
  · intro hne
    have hj0lt : j0 < q.length - 1 := by
      rcases Nat.lt_or_eq_of_le hj0le with h | h
      · exact h
      · exact absurd (h ▸ hsearch0) hne
    have hmj := (searchAux_eq_some hsearch0).1
    simp only [matchSome, multiPats, List.any_cons, List.any_nil, Bool.or_eq_true,
      Bool.or_false, List.isPrefixOf_iff_prefix] at hmj
    rcases hmj with h | h | h | h | h
    · obtain ⟨t, ht⟩ := h
      rcases hcons : q.drop j0 with _ | ⟨c, rest⟩
      · rw [hcons] at ht; simp [lowerStr] at ht
      · rw [hcons] at ht
        simp only [lowerStr, List.map_cons, List.singleton_append, List.cons.injEq] at ht
        have hc : c = ';' := lowerChar_eq_low (by decide) ht.1.symm
        refine Or.inl ⟨j0, hj0lt, ?_⟩
        have := List.getElem?_drop q j0 0
        rw [hcons] at this
        simpa [hc] using this.symm
    · obtain ⟨t, ht⟩ := h
      rcases hcons : q.drop j0 with _ | ⟨c1, rest1⟩
      · rw [hcons] at ht; simp [lowerStr] at ht
      · rcases rest1 with _ | ⟨c2, rest2⟩
        · rw [hcons] at ht; simp [lowerStr] at ht
        · rw [hcons] at ht
          simp only [lowerStr, List.map_cons, List.cons_append, List.nil_append,
            List.cons.injEq] at ht
          have hc1 : c1 = '-' := lowerChar_eq_low (by decide) ht.1.symm
          have hc2 : c2 = '-' := lowerChar_eq_low (by decide) ht.2.1.symm
          refine Or.inr (Or.inl ⟨j0, ?_⟩)
          rw [hcons, hc1, hc2]
          exact ⟨rest2, rfl⟩
    · exact Or.inr (Or.inr (Or.inl ⟨j0, h⟩))
    · exact Or.inr (Or.inr (Or.inr (Or.inl ⟨j0, h⟩)))
    · exact Or.inr (Or.inr (Or.inr (Or.inr ⟨j0, h⟩)))
  · intro hdisj
    have hmatch : ∃ i, i < q.length - 1 ∧ matchSome (q.drop i) = true := by
      rcases hdisj with ⟨i, hi, hget⟩ | ⟨i, hpre⟩ | ⟨i, hpre⟩ | ⟨i, hpre⟩ | ⟨i, hpre⟩
      · refine ⟨i, hi, ?_⟩
        have hlt : i < q.length := (List.getElem?_eq_some.mp hget).1
        have hv : q[i] = ';' := (List.getElem?_eq_some.mp hget).2
        have hdropi : q.drop i = ';' :: q.drop (i + 1) := by
          rw [List.drop_eq_getElem_cons hlt, hv]
        simp only [matchSome, multiPats, List.any_cons, Bool.or_eq_true,
          List.isPrefixOf_iff_prefix]
        refine Or.inl ?_
        rw [hdropi]
        exact ⟨lowerStr (q.drop (i + 1)), by simp [lowerStr, lowerChar]⟩
      · have hlen : 2 ≤ (q.drop i).length := by
          have := hpre.length_le; simpa using this
        rw [List.length_drop] at hlen
        refine ⟨i, by omega, ?_⟩
        simp only [matchSome, multiPats, List.any_cons, Bool.or_eq_true,
          List.isPrefixOf_iff_prefix]
        have hmap := hpre.map lowerChar
        refine Or.inr (Or.inl ?_)
        simpa [lowerStr, lowerChar] using hmap
      · have hlen : 9 ≤ (q.drop i).length := by
          have := hpre.length_le; simpa [lowerStr] using this
        rw [List.length_drop] at hlen
        refine ⟨i, by omega, ?_⟩
        simp only [matchSome, multiPats, List.any_cons, Bool.or_eq_true,
          List.isPrefixOf_iff_prefix]
        exact Or.inr (Or.inr (Or.inl hpre))
      · have hlen : 12 ≤ (q.drop i).length := by
          have := hpre.length_le; simpa [lowerStr] using this
        rw [List.length_drop] at hlen
        refine ⟨i, by omega, ?_⟩
        simp only [matchSome, multiPats, List.any_cons, Bool.or_eq_true,
          List.isPrefixOf_iff_prefix]
        exact Or.inr (Or.inr (Or.inr (Or.inl hpre)))
      · have hlen : 12 ≤ (q.drop i).length := by
          have := hpre.length_le; simpa [lowerStr] using this
        rw [List.length_drop] at hlen
        refine ⟨i, by omega, ?_⟩
        simp only [matchSome, multiPats, List.any_cons, Bool.or_eq_true,
          List.isPrefixOf_iff_prefix]
        exact Or.inr (Or.inr (Or.inr (Or.inr (by simpa using hpre))))
    obtain ⟨i, hilt, hm⟩ := hmatch
    obtain ⟨j, hji, hsearch⟩ := searchAux_le_of_match hm
    rw [hsearch]
    intro hcontra
    have : j = q.length - 1 := Option.some_injective _ hcontra
    omega

/-- Witness for claim C2: the worked example of the spec, a query reading
the local time, is rejected with the exact message. -/
theorem querySC_multi_reject_iff_witness :
    querySCCheck false "SELECT localtime;".data =
      .error "Invalid query: multiple queries, comments or time request." :=
  (querySC_multi_reject_iff false "SELECT localtime;".data
      (normalizeQuery "SELECT localtime;".data) rfl).mpr
    (Or.inr (Or.inr (Or.inl ⟨7, [';'], by decide⟩)))

/-- Claim C3: `verifyWithPreviousBlock` with an undefined previous block
returns true exactly for id 0 with an all-zero previous block hash and
throws for a nonzero id; with a defined previous block it returns true
exactly when the id is the successor, the previous block hash is the double
SHA-256 of the sign prefix and the previous data without length field and
signature, and time moves forward; it throws exactly on an id mismatch and
returns false (without throwing) exactly on a hash or timestamp mismatch. -/
theorem verifyWithPreviousBlock_spec (ext : Ext) (sp : List Nat) (b : Block) :
    (Block.verifyWithPreviousBlock ext sp b none = .ok true
        ↔ b.id = 0 ∧ Block.getPreviousBlockHash b = List.replicate 32 0)
    ∧ ((∃ e, Block.verifyWithPreviousBlock ext sp b none = .error e) ↔ b.id ≠ 0)
    ∧ ∀ p : Block,
        (Block.verifyWithPreviousBlock ext sp b (some p) = .ok true
          ↔ b.id = p.id + 1
            ∧ Block.getPreviousBlockHash b
                = ext.hash256 (sp ++ (p.data.take (p.data.length - 64)).drop 4)
            ∧ p.processedTs < b.processedTs)
        ∧ ((∃ e, Block.verifyWithPreviousBlock ext sp b (some p) = .error e)
          ↔ b.id ≠ p.id + 1)
        ∧ (Block.verifyWithPreviousBlock ext sp b (some p) = .ok false
          ↔ b.id = p.id + 1
            ∧ ¬(Block.getPreviousBlockHash b
                  = ext.hash256 (sp ++ (p.data.take (p.data.length - 64)).drop 4)
                ∧ p.processedTs < b.processedTs)) := by
  refine ⟨?_, ?_, fun p => ⟨?_, ?_, ?_⟩⟩
  · unfold Block.verifyWithPreviousBlock
    by_cases h : b.id = 0 <;> simp [h]
  · unfold Block.verifyWithPreviousBlock
    by_cases h : b.id = 0 <;> simp [h]
  · unfold Block.verifyWithPreviousBlock
    by_cases h : b.id = p.id + 1 <;> simp [h, Block.getHash]
  · unfold Block.verifyWithPreviousBlock
    by_cases h : b.id = p.id + 1 <;> simp [h]
  · unfold Block.verifyWithPreviousBlock
    by_cases h : b.id = p.id + 1 <;> simp [h, Block.getHash, Decidable.not_and_iff_or_not]

/-! ### Constructor success facts -/

theorem fromBuffer_ok_tx {ext : Ext} {d : List Nat} {t : Transaction}
    (h : Transaction.fromBuffer ext d = .ok t) : t.data = d ∧ 158 ≤ d.length := by
  unfold Transaction.fromBuffer at h
  dsimp only at h
  split_ifs at h with h1 h2 h3 h4 h5 h6 h7
  all_goals try injection h
  next heq =>
    refine ⟨?_, ?_⟩
    · rw [← heq]
    · simp [Transaction.emptyLength] at h5
      omega

theorem finishChecks_ok {d : List Nat} {v i ts : Nat} {b : Block}
    (h : Block.finishChecks d v i ts = .ok b) :
    b.data = d ∧ 117 ≤ d.length ∧ b.transactionsAmount = (Block.txWalk d 53).2
      ∧ (Block.txWalk d 53).1 = d.length - 64 := by
  unfold Block.finishChecks at h
  dsimp only at h
  split_ifs at h with h1 h2 h3 h4 h5
  all_goals try injection h
  next heq =>
    simp [Block.emptyLength] at h2
    refine ⟨by rw [← heq], by omega, by rw [← heq], by simpa using h5⟩

theorem fromBuffer_ok_block {d : List Nat} {b : Block}
    (h : Block.fromBuffer d = .ok b) :
    b.data = d ∧ 117 ≤ d.length ∧ b.transactionsAmount = (Block.txWalk d 53).2
      ∧ (Block.txWalk d 53).1 = d.length - 64 := by
  unfold Block.fromBuffer at h
  dsimp only at h
  split_ifs at h with h1 h2 h3
  exact finishChecks_ok h

/-! ### Merge and unmerge -/

theorem unmerge_merge_tx (ext : Ext) (ts : List Transaction)
    (h : ∀ t ∈ ts, Transaction.fromBuffer ext t.data = .ok t
        ∧ leVal (t.data.take 4) = t.data.length - 4) :
    Transaction.unmerge ext (Transaction.merge ts) = .ok ts := by
  induction ts with
  | nil =>
    unfold Transaction.unmerge
    simp [Transaction.merge]
  | cons t rest ih =>
    obtain ⟨hok, hlen⟩ := h t (List.mem_cons_self t rest)
    obtain ⟨-, hlen158⟩ := fromBuffer_ok_tx hok
    have hmerge : Transaction.merge (t :: rest) = t.data ++ Transaction.merge rest := by
      simp [Transaction.merge]
    rw [hmerge]
    unfold Transaction.unmerge
    have hlen4 : ¬ (t.data ++ Transaction.merge rest).length < 4 := by
      simp; omega
    rw [if_neg hlen4]
    dsimp only
    have htake4 : (t.data ++ Transaction.merge rest).take 4 = t.data.take 4 :=
      List.take_append_of_le_length (by omega)
    rw [htake4, hlen]
    have h44 : 4 + (t.data.length - 4) = t.data.length := by omega
    rw [h44]
    have hcond2 : ¬ (t.data ++ Transaction.merge rest).length < t.data.length := by simp
    rw [if_neg hcond2, List.take_left, List.drop_left, hok,
      ih (fun u hu => h u (List.mem_cons_of_mem _ hu))]

theorem unmerge_merge_block (bs : List Block)
    (h : ∀ b ∈ bs, Block.fromBuffer b.data = .ok b
        ∧ leVal (b.data.take 4) = b.data.length - 4) :
    Block.unmerge (Block.merge bs) = .ok bs := by
  induction bs with
  | nil =>
    unfold Block.unmerge
    simp [Block.merge]
  | cons b rest ih =>
    obtain ⟨hok, hlen⟩ := h b (List.mem_cons_self b rest)
    obtain ⟨-, hlen117, -, -⟩ := fromBuffer_ok_block hok
    have hmerge : Block.merge (b :: rest) = b.data ++ Block.merge rest := by
      simp [Block.merge]
    rw [hmerge]
    unfold Block.unmerge
    have hlen4 : ¬ (b.data ++ Block.merge rest).length < 4 := by
      simp; omega
    rw [if_neg hlen4]
    dsimp only
    have htake4 : (b.data ++ Block.merge rest).take 4 = b.data.take 4 :=
      List.take_append_of_le_length (by omega)
    rw [htake4, hlen]
    have h44 : 4 + (b.data.length - 4) = b.data.length := by omega
    rw [h44]
    have hcond2 : ¬ (b.data ++ Block.merge rest).length < b.data.length := by simp
    rw [if_neg hcond2, List.take_left, List.drop_left, hok,
      ih (fun u hu => h u (List.mem_cons_of_mem _ hu))]

/-- Claim C4: unmerging a merged list of well-formed transactions (or
blocks) succeeds and returns the same list, order and bytes included; the
empty stream unmerges to the empty list; a stream of one to three bytes is
rejected; and a stream whose leading length field points past the end is
rejected.  Well-formed means accepted by the constructor together with the
wire invariant that the embedded length field is the buffer length minus 4
(the constructor does not check the embedded field, see claim C10). -/
theorem merge_unmerge_roundtrip (ext : Ext) :
    (∀ ts : List Transaction,
        (∀ t ∈ ts, Transaction.fromBuffer ext t.data = .ok t
            ∧ leVal (t.data.take 4) = t.data.length - 4) →
        Transaction.unmerge ext (Transaction.merge ts) = .ok ts)
    ∧ (∀ bs : List Block,
        (∀ b ∈ bs, Block.fromBuffer b.data = .ok b
            ∧ leVal (b.data.take 4) = b.data.length - 4) →
        Block.unmerge (Block.merge bs) = .ok bs)
    ∧ Transaction.unmerge ext [] = .ok []
    ∧ Block.unmerge [] = .ok []
    ∧ (∀ s : List Nat, 1 ≤ s.length → s.length ≤ 3 →
        (∃ e, Transaction.unmerge ext s = .error e) ∧ ∃ e, Block.unmerge s = .error e)
    ∧ (∀ s : List Nat, 4 ≤ s.length → s.length < 4 + leVal (s.take 4) →
        (∃ e, Transaction.unmerge ext s = .error e) ∧ ∃ e, Block.unmerge s = .error e) := by
  refine ⟨unmerge_merge_tx ext, unmerge_merge_block, ?_, ?_, ?_, ?_⟩
  · unfold Transaction.unmerge; simp
  · unfold Block.unmerge; simp
  · intro s h1 h3
    constructor
    · unfold Transaction.unmerge
      rw [if_pos (by omega), if_neg (by omega)]
      exact ⟨_, rfl⟩
    · unfold Block.unmerge
      rw [if_pos (by omega), if_neg (by omega)]
      exact ⟨_, rfl⟩
  · intro s h4 hov
    constructor
    · unfold Transaction.unmerge
      rw [if_neg (by omega)]
      dsimp only
      rw [if_pos hov]
      exact ⟨_, rfl⟩
    · unfold Block.unmerge
      rw [if_neg (by omega)]
      dsimp only
      rw [if_pos hov]
      exact ⟨_, rfl⟩

/-- A record of external primitives used to instantiate witnesses: a
constant hash, a curve check accepting everything and a JSON parser
accepting everything. -/
def ext0 : Ext := ⟨fun _ => List.replicate 32 0, fun _ => true, fun _ => true⟩

/-- A minimal well-formed transaction buffer: empty payload, all-zero
fields, public key starting with byte 2. -/
def txData0 : List Nat :=
  [154, 0, 0, 0, 1] ++ List.replicate 56 0 ++ List.replicate 64 0 ++ (2 :: List.replicate 32 0)

/-- The transaction built from `txData0`. -/
def tx0 : Transaction := ⟨txData0, 1, 0, 154, 0⟩

/-- A minimal well-formed block buffer: no transactions, all-zero fields. -/
def blockData0 : List Nat := [113, 0, 0, 0, 1] ++ List.replicate 112 0

/-- The block built from `blockData0`. -/
def block0 : Block := ⟨blockData0, 1, 113, 0, 0, 0⟩

/-- Witness for claim C4 at concrete values. -/
theorem merge_unmerge_roundtrip_witness :
    Transaction.unmerge ext0 (Transaction.merge [tx0]) = .ok [tx0]
    ∧ Block.unmerge (Block.merge [block0]) = .ok [block0]
    ∧ (∃ e, Transaction.unmerge ext0 [0] = .error e)
    ∧ ∃ e, Transaction.unmerge ext0 [200, 0, 0, 0, 1] = .error e := by
  refine ⟨?_, ?_, ?_, ?_⟩
  · refine (merge_unmerge_roundtrip ext0).1 [tx0] ?_
    intro t ht
    simp only [List.mem_singleton] at ht
    subst ht
    exact ⟨rfl, rfl⟩
  · refine (merge_unmerge_roundtrip ext0).2.1 [block0] ?_
    intro b hb
    simp only [List.mem_singleton] at hb
    subst hb
    exact ⟨rfl, rfl⟩
  · exact ((merge_unmerge_roundtrip ext0).2.2.2.2.1 [0] (by decide) (by decide)).1
  · exact ((merge_unmerge_roundtrip ext0).2.2.2.2.2 [200, 0, 0, 0, 1]
      (by decide) (by decide)).1

end Validana

namespace Validana

/-- The record walk in the language of the specification: starting from a
region of bytes, repeatedly read a `u32` length prefix and skip that many
bytes plus 4, counting records, succeeding only when the region is consumed
exactly.  Fuel-structured; `countRecords` supplies sufficient fuel. -/
def countRecordsGo : Nat → List Nat → Option Nat
  | 0, r => if r.length = 0 then some 0 else none
  | fuel + 1, r =>
    if r.length = 0 then some 0
    else if r.length < 4 then none
    else
      let recLen := leVal (r.take 4)
      if r.length < 4 + recLen then none
      else (countRecordsGo fuel (r.drop (4 + recLen))).map (· + 1)

/-- The number of length-prefixed records exactly filling `r`. -/
def countRecords (r : List Nat) : Option Nat := countRecordsGo r.length r

theorem countRecordsGo_congr (f f' : Nat) (r : List Nat)
    (hf : r.length ≤ f) (hf' : r.length ≤ f') :
    countRecordsGo f r = countRecordsGo f' r := by
  induction f using Nat.strong_induction_on generalizing f' r with
  | _ f ih =>
    match f, f' with
    | 0, 0 => rfl
    | 0, g' + 1 =>
      have h0 : r.length = 0 := by omega
      simp [countRecordsGo, h0]
    | g + 1, 0 =>
      have h0 : r.length = 0 := by omega
      simp [countRecordsGo, h0]
    | g + 1, g' + 1 =>
      unfold countRecordsGo
      by_cases h0 : r.length = 0
      · simp [h0]
      · by_cases h4 : r.length < 4
        · simp [h0, h4]
        · simp only [h0, h4, if_false]
          by_cases hov : r.length < 4 + leVal (r.take 4)
          · simp [hov]
          · simp only [hov, if_false]
            have hrec := ih g (by omega) g' (r.drop (4 + leVal (r.take 4)))
              (by simp [List.length_drop]; omega) (by simp [List.length_drop]; omega)
            rw [hrec]

theorem txWalkGo_base {data : List Nat} {n loc : Nat}
    (h : ¬ loc + 4 ≤ data.length - 64) : Block.txWalkGo data n loc = (loc, 0) := by
  match n with
  | 0 => rfl
  | k + 1 => unfold Block.txWalkGo; rw [if_neg h]

theorem txWalk_count (data : List Nat) :
    ∀ n loc, loc ≤ data.length - 64 → data.length - 64 - loc ≤ n →
      countRecords ((data.take (data.length - 64)).drop loc)
        = if (Block.txWalkGo data n loc).1 = data.length - 64
          then some (Block.txWalkGo data n loc).2 else none := by
  intro n
  induction n with
  | zero =>
    intro loc h1 h2
    have hloc : loc = data.length - 64 := by omega
    have hreg : (data.take (data.length - 64)).drop loc = [] := by
      apply List.drop_eq_nil_of_le
      simp [List.length_take]
      omega
    rw [hreg]
    subst hloc
    simp [countRecords, countRecordsGo, Block.txWalkGo]
  | succ n ih =>
    intro loc h1 h2
    have hreglen : ((data.take (data.length - 64)).drop loc).length
        = data.length - 64 - loc := by
      simp [List.length_drop, List.length_take]
    unfold Block.txWalkGo
    by_cases hc : loc + 4 ≤ data.length - 64
    · rw [if_pos hc]
      have htk : ((data.take (data.length - 64)).drop loc).take 4
          = (data.drop loc).take 4 := by
        rw [List.drop_take]
        rw [List.take_take]
        congr 1
        omega
      set recL := leVal ((data.drop loc).take 4) with hrecL
      set r := (data.take (data.length - 64)).drop loc with hr
      have hcount : countRecords r = countRecordsGo (n + 1) r :=
        countRecordsGo_congr _ _ r (le_refl _) (by omega)
      rw [hcount]
      unfold countRecordsGo
      rw [if_neg (by omega), if_neg (by omega)]
      dsimp only
      rw [htk, ← hrecL]
      by_cases hov : r.length < 4 + recL
      · rw [if_pos hov]
        rw [@txWalkGo_base data n (loc + recL + 4) (by omega)]
        rw [if_neg (show ¬ ((loc + recL + 4, 0).1 = data.length - 64) by
          show ¬ (loc + recL + 4 = data.length - 64); omega)]
      · rw [if_neg hov]
        have hdropdrop : r.drop (4 + recL)
            = (data.take (data.length - 64)).drop (loc + recL + 4) := by
          rw [hr, List.drop_drop]
          congr 1
          omega
        have hrec := ih (loc + recL + 4) (by omega) (by omega)
        have hcount2 : countRecordsGo n (r.drop (4 + recL))
            = countRecords ((data.take (data.length - 64)).drop (loc + recL + 4)) := by
          rw [hdropdrop]
          unfold countRecords
          apply countRecordsGo_congr
          · rw [List.length_drop, List.length_take]
            omega
          · exact le_refl _
        rw [hcount2, hrec]
        by_cases hend : (Block.txWalkGo data n (loc + recL + 4)).1 = data.length - 64
        · rw [if_pos hend, if_pos hend]
          rfl
        · rw [if_neg hend, if_neg hend]
          rfl
    · rw [if_neg hc]
      by_cases hend : loc = data.length - 64
      · have hreg : (data.take (data.length - 64)).drop loc = [] := by
          apply List.drop_eq_nil_of_le
          rw [List.length_take]
          omega
        rw [hreg, if_pos (show ((loc, 0) : Nat × Nat).1 = data.length - 64 from hend)]
        simp [countRecords, countRecordsGo]
      · rw [if_neg (show ¬ (((loc, 0) : Nat × Nat).1 = data.length - 64) from hend)]
        unfold countRecords
        obtain ⟨m, hm⟩ : ∃ m, ((data.take (data.length - 64)).drop loc).length = m + 1 :=
          ⟨((data.take (data.length - 64)).drop loc).length - 1, by omega⟩
        rw [hm]
        unfold countRecordsGo
        rw [if_neg (by omega), if_pos (by omega)]

theorem fromDB_ok {rec : DBBlock} {b : Block} (h : Block.fromDB rec = .ok b) :
    b.data = Block.assembleDB rec ∧ 117 ≤ (Block.assembleDB rec).length
    ∧ b.transactionsAmount = (Block.txWalk (Block.assembleDB rec) 53).2
    ∧ (Block.txWalk (Block.assembleDB rec) 53).1 = (Block.assembleDB rec).length - 64 := by
  unfold Block.fromDB at h
  split_ifs at h with h1 h2 h3
  exact finishChecks_ok h

/-- A block buffer whose transaction region has length 2, so the record
walk cannot land on the signature boundary. -/
def badBlockData : List Nat := [115, 0, 0, 0, 1] ++ List.replicate 114 0

/-- Claim C5: for a block accepted by the constructor (from a buffer or
from a database record), `transactionsAmount` is the number of
length-prefixed records that exactly fill bytes 53 to length minus 64, and
when no record count exactly fills that region the constructor rejects. -/
theorem block_transactionsAmount_spec :
    (∀ d b, Block.fromBuffer d = .ok b →
        countRecords ((d.take (d.length - 64)).drop 53) = some b.transactionsAmount)
    ∧ (∀ rec b, Block.fromDB rec = .ok b →
        countRecords ((b.data.take (b.data.length - 64)).drop 53) = some b.transactionsAmount)
    ∧ (∀ d, countRecords ((d.take (d.length - 64)).drop 53) = none →
        ∀ b, Block.fromBuffer d ≠ .ok b)
    ∧ (∀ rec, countRecords (((Block.assembleDB rec).take
          ((Block.assembleDB rec).length - 64)).drop 53) = none →
        ∀ b, Block.fromDB rec ≠ .ok b) := by
  have key : ∀ d : List Nat, 117 ≤ d.length →
      countRecords ((d.take (d.length - 64)).drop 53)
        = if (Block.txWalk d 53).1 = d.length - 64
          then some (Block.txWalk d 53).2 else none := by
    intro d hd
    exact txWalk_count d (d.length - 53) 53 (by omega) (by omega)
  refine ⟨?_, ?_, ?_, ?_⟩
  · intro d b h
    obtain ⟨hdata, hlen, hamt, hend⟩ := fromBuffer_ok_block h
    rw [key d hlen, if_pos hend, hamt]
  · intro rec b h
    obtain ⟨hdata, hlen, hamt, hend⟩ := fromDB_ok h
    rw [hdata, key _ hlen, if_pos hend, hamt]
  · intro d hnone b hok
    obtain ⟨-, hlen, -, hend⟩ := fromBuffer_ok_block hok
    rw [key d hlen, if_pos hend] at hnone
    exact Option.noConfusion hnone
  · intro rec hnone b hok
    obtain ⟨-, hlen, -, hend⟩ := fromDB_ok hok
    rw [key _ hlen, if_pos hend] at hnone
    exact Option.noConfusion hnone

/-- Witness for claim C5: the empty block has record count zero, and a
buffer with a two-byte transaction region is rejected. -/
theorem block_transactionsAmount_spec_witness :
    countRecords ((blockData0.take (blockData0.length - 64)).drop 53)
        = some block0.transactionsAmount
    ∧ Block.fromBuffer badBlockData ≠ .ok block0 := by
  constructor
  · exact block_transactionsAmount_spec.1 blockData0 block0 rfl
  · exact block_transactionsAmount_spec.2.2.1 badBlockData (by rfl) block0

end Validana

namespace Validana

theorem txWalkGo_prefix (p p' rest : List Nat) (hp : p.length = 4) (hp' : p'.length = 4) :
    ∀ fuel loc, 4 ≤ loc → Block.txWalkGo (p ++ rest) fuel loc = Block.txWalkGo (p' ++ rest) fuel loc := by
  intro fuel
  induction fuel with
  | zero => intro loc hloc; rfl
  | succ n ih =>
    intro loc hloc
    unfold Block.txWalkGo
    have hlen : (p ++ rest).length = (p' ++ rest).length := by
      simp [hp, hp']
    have hread : (p ++ rest).drop loc = (p' ++ rest).drop loc := by
      rw [show loc = p.length + (loc - 4) by omega, List.drop_append,
        show p.length + (loc - 4) = p'.length + (loc - 4) by omega, List.drop_append]
    rw [hlen, hread]
    by_cases hc : loc + 4 ≤ (p' ++ rest).length - 64
    · rw [if_pos hc, if_pos hc]
      dsimp only
      rw [ih _ (by omega)]
    · rw [if_neg hc, if_neg hc]

theorem tx_fromBuffer_prefix (ext : Ext) (p p' rest : List Nat)
    (hp : p.length = 4) (hp' : p'.length = 4) :
    (Transaction.fromBuffer ext (p ++ rest)).isOk
      = (Transaction.fromBuffer ext (p' ++ rest)).isOk := by
  by_cases hshort : rest.length < 57
  · unfold Transaction.fromBuffer
    by_cases h0 : rest.length < 1
    · rw [if_pos (show (p ++ rest).length < 5 by simp [hp]; omega),
        if_pos (show (p' ++ rest).length < 5 by simp [hp']; omega)]
    · rw [if_neg (show ¬ (p ++ rest).length < 5 by simp [hp]; omega),
        if_neg (show ¬ (p' ++ rest).length < 5 by simp [hp']; omega)]
      dsimp only
      rw [if_pos (show (p ++ rest).length < 61 by simp [hp]; omega),
        if_pos (show (p' ++ rest).length < 61 by simp [hp']; omega)]
  · unfold Transaction.fromBuffer
    have hlen : (p ++ rest).length = 4 + rest.length := by simp [hp]
    have hlen' : (p' ++ rest).length = 4 + rest.length := by simp [hp']
    have hg : (p ++ rest).getD 4 0 = rest.getD 0 0 := by
      rw [List.getD_eq_getElem?_getD, List.getElem?_append_right (by omega),
        hp, List.getD_eq_getElem?_getD]
    have hg' : (p' ++ rest).getD 4 0 = rest.getD 0 0 := by
      rw [List.getD_eq_getElem?_getD, List.getElem?_append_right (by omega),
        hp', List.getD_eq_getElem?_getD]
    have hd53 : (p ++ rest).drop 53 = rest.drop 49 := by
      rw [show (53 : Nat) = p.length + 49 by omega, List.drop_append]
    have hd53' : (p' ++ rest).drop 53 = rest.drop 49 := by
      rw [show (53 : Nat) = p'.length + 49 by omega, List.drop_append]
    have hdpk : (p ++ rest).drop ((p ++ rest).length - 33)
        = rest.drop (rest.length - 33) := by
      rw [hlen, show 4 + rest.length - 33 = p.length + (rest.length - 33) by omega,
        List.drop_append]
    have hdpk' : (p' ++ rest).drop ((p' ++ rest).length - 33)
        = rest.drop (rest.length - 33) := by
      rw [hlen', show 4 + rest.length - 33 = p'.length + (rest.length - 33) by omega,
        List.drop_append]
    rw [hg, hg', hd53, hd53', hdpk, hdpk', hlen, hlen']
    dsimp only
    split_ifs <;> rfl

set_option maxHeartbeats 1600000 in
theorem block_fromBuffer_prefix (p p' rest : List Nat)
    (hp : p.length = 4) (hp' : p'.length = 4) :
    (Block.fromBuffer (p ++ rest)).isOk = (Block.fromBuffer (p' ++ rest)).isOk := by
  unfold Block.fromBuffer Block.finishChecks
  have hlen : (p ++ rest).length = 4 + rest.length := by simp [hp]
  have hlen' : (p' ++ rest).length = 4 + rest.length := by simp [hp']
  have hg : (p ++ rest).getD 4 0 = rest.getD 0 0 := by
    rw [List.getD_eq_getElem?_getD, List.getElem?_append_right (by omega),
      hp, List.getD_eq_getElem?_getD]
  have hg' : (p' ++ rest).getD 4 0 = rest.getD 0 0 := by
    rw [List.getD_eq_getElem?_getD, List.getElem?_append_right (by omega),
      hp', List.getD_eq_getElem?_getD]
  have hd5 : (p ++ rest).drop 5 = rest.drop 1 := by
    rw [show (5 : Nat) = p.length + 1 by omega, List.drop_append]
  have hd5' : (p' ++ rest).drop 5 = rest.drop 1 := by
    rw [show (5 : Nat) = p'.length + 1 by omega, List.drop_append]
  have hd45 : (p ++ rest).drop 45 = rest.drop 41 := by
    rw [show (45 : Nat) = p.length + 41 by omega, List.drop_append]
  have hd45' : (p' ++ rest).drop 45 = rest.drop 41 := by
    rw [show (45 : Nat) = p'.length + 41 by omega, List.drop_append]
  have hwalk : Block.txWalk (p ++ rest) 53 = Block.txWalk (p' ++ rest) 53 := by
    unfold Block.txWalk
    rw [hlen, hlen']
    exact txWalkGo_prefix p p' rest hp hp' _ 53 (by omega)
  rw [hg, hg', hd5, hd5', hd45, hd45', hwalk, hlen, hlen']
  dsimp only
  split_ifs <;> rfl

theorem fromBuffer_tx_totalLength {ext : Ext} {d : List Nat} {t : Transaction}
    (h : Transaction.fromBuffer ext d = .ok t) : t.totalLength = d.length - 4 := by
  unfold Transaction.fromBuffer at h
  dsimp only at h
  split_ifs at h with h1 h2 h3 h4 h5 h6 h7
  all_goals try injection h
  next heq => rw [← heq]

theorem fromBuffer_block_totalLength {d : List Nat} {b : Block}
    (h : Block.fromBuffer d = .ok b) : b.totalLength = d.length - 4 := by
  unfold Block.fromBuffer at h
  dsimp only at h
  split_ifs at h with h1 h2 h3
  unfold Block.finishChecks at h
  dsimp only at h
  split_ifs at h with h4 h5 h6 h7 h8
  all_goals try injection h
  next heq => rw [← heq]

/-- Claim C10: the constructors store `totalLength` as the buffer length
minus 4 and never compare the embedded `u32` length field at bytes 0 to 4
with the buffer length: replacing the first four bytes by any other four
bytes does not change whether construction succeeds. -/
theorem constructors_ignore_embedded_length (ext : Ext) :
    (∀ d t, Transaction.fromBuffer ext d = .ok t → t.totalLength = d.length - 4)
    ∧ (∀ d b, Block.fromBuffer d = .ok b → b.totalLength = d.length - 4)
    ∧ (∀ p p' rest, p.length = 4 → p'.length = 4 →
        (Transaction.fromBuffer ext (p ++ rest)).isOk
          = (Transaction.fromBuffer ext (p' ++ rest)).isOk)
    ∧ (∀ p p' rest, p.length = 4 → p'.length = 4 →
        (Block.fromBuffer (p ++ rest)).isOk = (Block.fromBuffer (p' ++ rest)).isOk) :=
  ⟨fun _ _ h => fromBuffer_tx_totalLength h,
   fun _ _ h => fromBuffer_block_totalLength h,
   fun p p' rest hp hp' => tx_fromBuffer_prefix ext p p' rest hp hp',
   fun p p' rest hp hp' => block_fromBuffer_prefix p p' rest hp hp'⟩

/-- `txData0` with a wrong embedded length field (value 25497, not 154). -/
def txData99 : List Nat := [153, 99, 0, 0] ++ txData0.drop 4

/-- `blockData0` with a wrong embedded length field. -/
def blockData99 : List Nat := [7, 7, 7, 7] ++ blockData0.drop 4

/-- Witness for claim C10: buffers whose embedded length fields disagree
with the buffer length are accepted by both constructors. -/
theorem constructors_ignore_embedded_length_witness :
    ((Transaction.fromBuffer ext0 txData99).isOk = true
        ∧ leVal (txData99.take 4) ≠ txData99.length - 4)
    ∧ (Block.fromBuffer blockData99).isOk = true
        ∧ leVal (blockData99.take 4) ≠ blockData99.length - 4 := by
  refine ⟨⟨?_, by decide⟩, ?_, by decide⟩
  · have h := (constructors_ignore_embedded_length ext0).2.2.1
      [154, 0, 0, 0] [153, 99, 0, 0] (txData0.drop 4) rfl rfl
    calc (Transaction.fromBuffer ext0 txData99).isOk
        = (Transaction.fromBuffer ext0 ([153, 99, 0, 0] ++ txData0.drop 4)).isOk := rfl
      _ = (Transaction.fromBuffer ext0 ([154, 0, 0, 0] ++ txData0.drop 4)).isOk := h.symm
      _ = true := rfl
  · have h := (constructors_ignore_embedded_length ext0).2.2.2
      [113, 0, 0, 0] [7, 7, 7, 7] (blockData0.drop 4) rfl rfl
    calc (Block.fromBuffer blockData99).isOk
        = (Block.fromBuffer ([7, 7, 7, 7] ++ blockData0.drop 4)).isOk := rfl
      _ = (Block.fromBuffer ([113, 0, 0, 0] ++ blockData0.drop 4)).isOk := h.symm
      _ = true := rfl

end Validana

namespace Validana

/-! ## Addresses (key.ts) and the missing Crypto helpers

The implementation of `tools/crypto.ts` is not part of the sources, only
its declaration file; the helpers below are modelled from the spec. -/

/-- Modelled from the spec: the Bitcoin base58 alphabet. -/
def base58Chars : List Char :=
  "123456789ABCDEFGHJKLMNPQRSTUVWXYZabcdefghijkmnopqrstuvwxyz".data

/-- Index of a character in the base58 alphabet. -/
def b58Index (c : Char) : Option Nat :=
  let i := base58Chars.indexOf c
  if i < 58 then some i else none

/-- Number of leading zeros of a byte list (leading `1` characters of a
base58 string decode to leading zero bytes and conversely). -/
def countLeadZeros (l : List Nat) : Nat := (l.takeWhile (· == 0)).length

/-- The alphabet character of a digit below 58. -/
def chr58 (d : Nat) : Char := base58Chars.getD d '1'

/-- The digits of a base58 string, failing on a character outside the
alphabet. -/
def b58Digits : List Char → Option (List Nat)
  | [] => some []
  | c :: rest =>
    match b58Index c, b58Digits rest with
    | some d, some ds => some (d :: ds)
    | _, _ => none

/-- Modelled from the spec: `Crypto.base58ToBinary`.  Fails on a character
outside the alphabet; leading `1` characters become leading zero bytes and
the remaining digits are read as a big-endian base58 number. -/
def base58ToBinary (s : List Char) : Option (List Nat) :=
  match b58Digits s with
  | none => none
  | some ds =>
    some (List.replicate (countLeadZeros ds) 0
      ++ (Nat.digits 256 (Nat.ofDigits 58 ds.reverse)).reverse)

/-- Modelled from the spec: `Crypto.binaryToBase58`.  Leading zero bytes
become leading `1` characters and the remaining bytes are written as a
big-endian base58 number. -/
def binaryToBase58 (b : List Nat) : List Char :=
  List.replicate (countLeadZeros b) '1'
    ++ (Nat.digits 58 (Nat.ofDigits 256 b.reverse)).reverse.map chr58

/-- Modelled from the spec: `Crypto.isHex`, an even-length string of hex
digits. -/
def isHexDigit (c : Char) : Bool :=
  ('0' ≤ c && c ≤ '9') || ('a' ≤ c && c ≤ 'f') || ('A' ≤ c && c ≤ 'F')

/-- Even-length hex string. -/
def isHex (s : List Char) : Bool := s.length % 2 == 0 && s.all isHexDigit

/-- Base64 alphabet member (without padding). -/
def isB64Char (c : Char) : Bool := c.isAlphanum || c == '+' || c == '/'

/-- Modelled from the spec: `Crypto.isBase64`, groups of four alphabet
characters with up to two `=` padding characters at the end. -/
def isBase64 (s : List Char) : Bool :=
  s.length % 4 == 0 &&
  (let padLen := (s.reverse.takeWhile (· == '=')).length
   padLen ≤ 2 && (s.take (s.length - padLen)).all isB64Char)

namespace PublicKey

/-- `PublicKey.isValidAddress` on a string: base58 decode, 25 bytes, zero
version byte, and the first four bytes of the double SHA-256 of the first
21 bytes equal the last four bytes. -/
def isValidAddressStr (ext : Ext) (address : List Char) : Bool :=
  match base58ToBinary address with
  | none => false
  | some dec =>
    dec.length == 25 && dec.getD 0 1 == 0
      && decide ((ext.hash256 (dec.take (dec.length - 4))).take 4
          = dec.drop (dec.length - 4))

/-- `PublicKey.isValidAddress`: strings are checked with base58 and the
checksum, buffers only for their 20-byte length. -/
def isValidAddress (ext : Ext) : List Char ⊕ List Nat → Bool
  | .inl s => isValidAddressStr ext s
  | .inr b => b.length == 20

/-- `PublicKey.addressAsBuffer`: throw on an invalid address, strip the
version byte and the checksum of a string address, return a buffer as is. -/
def addressAsBuffer (ext : Ext) (address : List Char ⊕ List Nat) :
    Except String (List Nat) :=
  if ¬ isValidAddress ext address then .error "Invalid address."
  else
    match address with
    | .inl s =>
      match base58ToBinary s with
      | some dec => .ok ((dec.take (dec.length - 4)).drop 1)
      | none => .error "Invalid address."
    | .inr b => .ok b

/-- `PublicKey.addressAsString`: throw on an invalid address, return a
string address as is, base58check encode a buffer. -/
def addressAsString (ext : Ext) (address : List Char ⊕ List Nat) :
    Except String (List Char) :=
  if ¬ isValidAddress ext address then .error "Invalid address."
  else
    match address with
    | .inl s => .ok s
    | .inr b =>
      let hashedAddress := 0 :: b
      let checksum := (ext.hash256 hashedAddress).take 4
      .ok (binaryToBase58 (hashedAddress ++ checksum))

end PublicKey

/-! ## Payload templates (transaction.ts)

JSON numbers are IEEE doubles in the host; the template verifier only ever
applies `Number.isSafeInteger`, `Number.isFinite` and a sign test to them,
so numbers are embedded by that classification: a non-finite value, an
integral finite value with its exact integer, or a non-integral finite
value. -/

inductive JsNumber where
  | nonFinite : JsNumber
  | intNum : Int → JsNumber
  | nonIntNum : JsNumber

/-- A decoded JSON value.  An object is its key-value list (keys unique,
as produced by `JSON.parse`). -/
inductive JsonValue where
  | null : JsonValue
  | bool : Bool → JsonValue
  | num : JsNumber → JsonValue
  | str : List Char → JsonValue
  | arr : List JsonValue → JsonValue
  | obj : List (List Char × JsonValue) → JsonValue

/-- `Number.isSafeInteger` on a possibly-undefined JSON value. -/
def isSafeIntegerV : Option JsonValue → Bool
  | some (.num (.intNum n)) => decide (n.natAbs ≤ 2 ^ 53 - 1)
  | _ => false

/-- The `value < 0` test, only reached after `Number.isSafeInteger`. -/
def isNegV : Option JsonValue → Bool
  | some (.num (.intNum n)) => decide (n < 0)
  | _ => false

/-- `Number.isFinite` on a possibly-undefined JSON value. -/
def isFiniteV : Option JsonValue → Bool
  | some (.num .nonFinite) => false
  | some (.num _) => true
  | _ => false

/-- `typeof value === "string" && p value`. -/
def strSat (p : List Char → Bool) : Option JsonValue → Bool
  | some (.str s) => p s
  | _ => false

/-- `typeof value === "boolean"`. -/
def isBoolV : Option JsonValue → Bool
  | some (.bool _) => true
  | _ => false

/-- `Transaction.checkType`: dispatch on the template type tag with the
exact error strings of the source; `str` and every unknown tag take the
default branch.  Each case of the source switch rejects exactly when its
test fails. -/
def checkType (ext : Ext) (value : Option JsonValue) (type : List Char) (version : Nat) :
    Option String :=
  if type = "bool".data then
    if isBoolV value then none
    else some "Payload has invalid or missing boolean type"
  else if type = "int".data then
    if isSafeIntegerV value then none
    else some "Payload has invalid or missing int type"
  else if type = "uint".data then
    if !isSafeIntegerV value || isNegV value then
      some "Payload has invalid or missing uint type"
    else none
  else if type = "float".data then
    if isFiniteV value then none
    else some "Payload has invalid or missing float type"
  else if type = "addr".data then
    if strSat (fun s => PublicKey.isValidAddress ext (.inl s)) value then none
    else some "Payload has invalid or missing address type"
  else if type = "hex".data then
    if strSat isHex value then none
    else some "Payload has invalid or missing hex type"
  else if type = "hash".data then
    if strSat (fun s => s.length == 64 && isHex s) value then none
    else some "Payload has invalid or missing hash type"
  else if type = "base64".data then
    if strSat isBase64 value then none
    else some "Payload has invalid or missing base64 type"
  else if type = "json".data then
    if version = 1 then
      if strSat (fun s => ext.jsonParseOk (String.mk s)) value then none
      else some "Payload has invalid or missing json type"
    else none
  else if type = "id".data then
    if strSat (fun s => version == 1 || (s.length == 32 && isHex s)) value then none
    else some "Payload has invalid or missing id type"
  else
    if strSat (fun _ => true) value then none
    else some "Payload has invalid or missing string type"

/-- The cached object payload of `getPayloadJson`: only a parse result
that is an object (not null, not an array) is kept. -/
def payloadObj : Option JsonValue → Option (List (List Char × JsonValue))
  | some (.obj fields) => some fields
  | _ => none

/-- Object field access `payload[key]` (keys of a parsed object are
unique). -/
def lookupKey (fields : List (List Char × JsonValue)) (k : List Char) : Option JsonValue :=
  (fields.find? (fun p => p.1 == k)).map Prod.snd

/-- The loop body of `verifyTemplate` for the elements of an array-typed
field: each element checked against the base type, an error reported with
the suffix `in array`. -/
def checkElems (ext : Ext) (version : Nat) (subTy : List Char) :
    List JsonValue → Option String
  | [] => none
  | v :: rest =>
    match checkType ext (some v) subTy version with
    | some e => some (e ++ " in array")
    | none => checkElems ext version subTy rest

/-- One template key of `verifyTemplate`: array types, then optional types
for versions other than 1, then a plain type check. -/
def verifyKey (ext : Ext) (payload : List (List Char × JsonValue))
    (key ty : List Char) (version : Nat) : Option String :=
  let payloadKey := lookupKey payload key
  if "Array".data.isSuffixOf ty then
    match payloadKey with
    | some (.arr elems) => checkElems ext version (ty.take (ty.length - 5)) elems
    | _ => some "Payload has invalid or missing array type"
  else if ty.getLast? = some '?' ∧ version ≠ 1 then
    match payloadKey with
    | none => none
    | some v => checkType ext (some v) (ty.take (ty.length - 1)) version
  else
    checkType ext payloadKey ty version

/-- The key loop of `verifyTemplate`: first failing key wins. -/
def verifyKeys (ext : Ext) (payload : List (List Char × JsonValue)) (version : Nat) :
    List (List Char × List Char) → Option String
  | [] => none
  | (key, ty) :: rest =>
    match verifyKey ext payload key ty version with
    | some e => some e
    | none => verifyKeys ext payload version rest

/-- `Transaction.verifyTemplate` on the decoded payload: reject a payload
that is not a JSON object, then a payload key absent from the template,
then check every template key. -/
def verifyTemplate (ext : Ext) (parsed : Option JsonValue)
    (template : List (List Char × List Char)) (version : Nat) : Option String :=
  match payloadObj parsed with
  | none => some "Payload is invalid json."
  | some payload =>
    if payload.any (fun p => ((template.find? (fun q => q.1 == p.1)).isNone : Bool)) then
      some "Payload has extra key."
    else
      verifyKeys ext payload version template

end Validana

namespace Validana

/-! ### Classification facts for the template checks -/

theorem strSat_iff (p : List Char → Bool) (v : Option JsonValue) :
    strSat p v = true ↔ ∃ s, v = some (.str s) ∧ p s = true := by
  rcases v with _ | w
  · simp [strSat]
  · cases w <;> simp [strSat]

theorem isBoolV_iff (v : Option JsonValue) :
    isBoolV v = true ↔ ∃ b, v = some (.bool b) := by
  rcases v with _ | w
  · simp [isBoolV]
  · cases w <;> simp [isBoolV]

theorem isSafeIntegerV_iff (v : Option JsonValue) :
    isSafeIntegerV v = true
      ↔ ∃ n : Int, v = some (.num (.intNum n)) ∧ n.natAbs ≤ 2 ^ 53 - 1 := by
  rcases v with _ | w
  · simp [isSafeIntegerV]
  · cases w with
    | num m => cases m <;> simp [isSafeIntegerV]
    | _ => simp [isSafeIntegerV]

theorem uintOk_iff (v : Option JsonValue) :
    (isSafeIntegerV v && !isNegV v) = true
      ↔ ∃ n : Int, v = some (.num (.intNum n)) ∧ n.natAbs ≤ 2 ^ 53 - 1 ∧ 0 ≤ n := by
  rcases v with _ | w
  · simp [isSafeIntegerV, isNegV]
  · cases w with
    | num m =>
      cases m with
      | intNum n =>
        simp [isSafeIntegerV, isNegV]
        try omega
      | _ => simp [isSafeIntegerV, isNegV]
    | _ => simp [isSafeIntegerV, isNegV]

theorem isFiniteV_iff (v : Option JsonValue) :
    isFiniteV v = true ↔ ∃ m, v = some (.num m) ∧ m ≠ JsNumber.nonFinite := by
  rcases v with _ | w
  · simp [isFiniteV]
  · cases w with
    | num m => cases m <;> simp [isFiniteV]
    | _ => simp [isFiniteV]

/-- Auxiliary: an if returning an error string in its else branch. -/
theorem ifErr_none {c : Prop} [Decidable c] {lit e : String}
    (h : (if c then none else some lit) = some e) : e = lit := by
  by_cases hc : c
  · rw [if_pos hc] at h; injection h
  · rw [if_neg hc] at h; exact (Option.some.inj h).symm

/-- Auxiliary: an if returning an error string in its then branch. -/
theorem ifErr_some {c : Prop} [Decidable c] {lit e : String}
    (h : (if c then some lit else none) = some e) : e = lit := by
  by_cases hc : c
  · rw [if_pos hc] at h; exact (Option.some.inj h).symm
  · rw [if_neg hc] at h; injection h

/-- Every error string produced by `checkType` starts with the words
`Payload has invalid or missing`. -/
theorem checkType_err_prefix {ext : Ext} {v : Option JsonValue} {ty : List Char}
    {ver : Nat} {e : String} (h : checkType ext v ty ver = some e) :
    "Payload has invalid or missing".data <+: e.data := by
  unfold checkType at h
  by_cases h1 : ty = "bool".data
  · rw [if_pos h1] at h; obtain rfl := ifErr_none h; decide
  · rw [if_neg h1] at h
    by_cases h2 : ty = "int".data
    · rw [if_pos h2] at h; obtain rfl := ifErr_none h; decide
    · rw [if_neg h2] at h
      by_cases h3 : ty = "uint".data
      · rw [if_pos h3] at h; obtain rfl := ifErr_some h; decide
      · rw [if_neg h3] at h
        by_cases h4 : ty = "float".data
        · rw [if_pos h4] at h; obtain rfl := ifErr_none h; decide
        · rw [if_neg h4] at h
          by_cases h5 : ty = "addr".data
          · rw [if_pos h5] at h; obtain rfl := ifErr_none h; decide
          · rw [if_neg h5] at h
            by_cases h6 : ty = "hex".data
            · rw [if_pos h6] at h; obtain rfl := ifErr_none h; decide
            · rw [if_neg h6] at h
              by_cases h7 : ty = "hash".data
              · rw [if_pos h7] at h; obtain rfl := ifErr_none h; decide
              · rw [if_neg h7] at h
                by_cases h8 : ty = "base64".data
                · rw [if_pos h8] at h; obtain rfl := ifErr_none h; decide
                · rw [if_neg h8] at h
                  by_cases h9 : ty = "json".data
                  · rw [if_pos h9] at h
                    by_cases hv : ver = 1
                    · rw [if_pos hv] at h; obtain rfl := ifErr_none h; decide
                    · rw [if_neg hv] at h; injection h
                  · rw [if_neg h9] at h
                    by_cases h10 : ty = "id".data
                    · rw [if_pos h10] at h; obtain rfl := ifErr_none h; decide
                    · rw [if_neg h10] at h; obtain rfl := ifErr_none h; decide

theorem checkElems_err_prefix {ext : Ext} {ver : Nat} {subTy : List Char}
    {elems : List JsonValue} {e : String}
    (h : checkElems ext ver subTy elems = some e) :
    "Payload has invalid or missing".data <+: e.data := by
  induction elems with
  | nil => simp [checkElems] at h
  | cons v rest ih =>
    unfold checkElems at h
    rcases hc : checkType ext (some v) subTy ver with _ | e2
    · rw [hc] at h
      exact ih h
    · rw [hc] at h
      obtain rfl := Option.some.inj h
      have := checkType_err_prefix hc
      rw [String.data_append]
      exact this.trans (List.prefix_append _ _)

theorem verifyKey_err_prefix {ext : Ext} {payload : List (List Char × JsonValue)}
    {key ty : List Char} {ver : Nat} {e : String}
    (h : verifyKey ext payload key ty ver = some e) :
    "Payload has invalid or missing".data <+: e.data := by
  unfold verifyKey at h
  dsimp only at h
  split_ifs at h with h1 h2
  · rcases hl : lookupKey payload key with _ | w
    · rw [hl] at h
      obtain rfl := Option.some.inj h
      decide
    · rw [hl] at h
      cases w with
      | arr elems => exact checkElems_err_prefix h
      | null => exact (Option.some.inj h) ▸ (by decide)
      | bool b => exact (Option.some.inj h) ▸ (by decide)
      | num m => exact (Option.some.inj h) ▸ (by decide)
      | str s => exact (Option.some.inj h) ▸ (by decide)
      | obj o => exact (Option.some.inj h) ▸ (by decide)
  · rcases hl : lookupKey payload key with _ | w
    · rw [hl] at h
      injection h
    · rw [hl] at h
      exact checkType_err_prefix h
  · exact checkType_err_prefix h

theorem verifyKeys_err_prefix {ext : Ext} {payload : List (List Char × JsonValue)}
    {ver : Nat} {tpl : List (List Char × List Char)} {e : String}
    (h : verifyKeys ext payload ver tpl = some e) :
    "Payload has invalid or missing".data <+: e.data := by
  induction tpl with
  | nil => simp [verifyKeys] at h
  | cons kt rest ih =>
    obtain ⟨key, ty⟩ := kt
    unfold verifyKeys at h
    rcases hk : verifyKey ext payload key ty ver with _ | e2
    · rw [hk] at h
      exact ih h
    · rw [hk] at h
      obtain rfl := Option.some.inj h
      exact verifyKey_err_prefix hk

theorem verifyKeys_none_iff (ext : Ext) (payload : List (List Char × JsonValue))
    (ver : Nat) (tpl : List (List Char × List Char)) :
    verifyKeys ext payload ver tpl = none
      ↔ ∀ kt ∈ tpl, verifyKey ext payload kt.1 kt.2 ver = none := by
  induction tpl with
  | nil => simp [verifyKeys]
  | cons kt rest ih =>
    obtain ⟨key, ty⟩ := kt
    unfold verifyKeys
    rcases hk : verifyKey ext payload key ty ver with _ | e2
    · simp only [ih]
      constructor
      · intro hall kt hmem
        rcases List.mem_cons.mp hmem with rfl | hmem2
        · exact hk
        · exact hall kt hmem2
      · intro hall kt hmem
        exact hall kt (List.mem_cons_of_mem _ hmem)
    · constructor
      · intro hcontra
        injection hcontra
      · intro hall
        have := hall (key, ty) (List.mem_cons_self _ _)
        rw [hk] at this
        injection this

/-- A type tag that is none of the dispatched tags takes the default
(string) branch of `checkType`. -/
theorem checkType_unknown (ext : Ext) (v : Option JsonValue) (ver : Nat) (ty : List Char)
    (h : ty ∉ ["bool".data, "int".data, "uint".data, "float".data, "addr".data,
      "hex".data, "hash".data, "base64".data, "json".data, "id".data]) :
    checkType ext v ty ver = checkType ext v "str".data ver := by
  simp only [List.mem_cons, List.mem_singleton, not_or] at h
  obtain ⟨n1, n2, n3, n4, n5, n6, n7, n8, n9, n10, -⟩ := h
  unfold checkType
  rw [if_neg n1, if_neg n2, if_neg n3, if_neg n4, if_neg n5, if_neg n6, if_neg n7,
    if_neg n8, if_neg n9, if_neg n10]
  rfl

/-- Claim C6: `verifyTemplate` rejects a non-object payload with exactly
the invalid-json message, rejects a payload key missing from the template
with the extra-key message, and otherwise checks every template key by the
base-type dispatch of `checkType` (boolean, safe integer, unsigned safe
integer, finite number, valid address string, even-length hex string,
64-character hex string, base64 string), with unknown tags treated as
`str`; the result is `none` exactly when every check passes. -/
theorem verifyTemplate_spec (ext : Ext) :
    (∀ parsed tpl ver,
        verifyTemplate ext parsed tpl ver = some "Payload is invalid json."
          ↔ payloadObj parsed = none)
    ∧ (∀ parsed payload tpl ver, payloadObj parsed = some payload →
        (∃ p ∈ payload, tpl.find? (fun q => q.1 == p.1) = none) →
        verifyTemplate ext parsed tpl ver = some "Payload has extra key.")
    ∧ (∀ (v : Option JsonValue) ver,
        (checkType ext v "bool".data ver = none ↔ ∃ b, v = some (.bool b))
        ∧ (checkType ext v "int".data ver = none
            ↔ ∃ n : Int, v = some (.num (.intNum n)) ∧ n.natAbs ≤ 2 ^ 53 - 1)
        ∧ (checkType ext v "uint".data ver = none
            ↔ ∃ n : Int, v = some (.num (.intNum n)) ∧ n.natAbs ≤ 2 ^ 53 - 1 ∧ 0 ≤ n)
        ∧ (checkType ext v "float".data ver = none
            ↔ ∃ m, v = some (.num m) ∧ m ≠ JsNumber.nonFinite)
        ∧ (checkType ext v "addr".data ver = none
            ↔ ∃ s, v = some (.str s) ∧ PublicKey.isValidAddress ext (.inl s) = true)
        ∧ (checkType ext v "hex".data ver = none
            ↔ ∃ s, v = some (.str s) ∧ isHex s = true)
        ∧ (checkType ext v "hash".data ver = none
            ↔ ∃ s, v = some (.str s) ∧ (s.length == 64 && isHex s) = true)
        ∧ (checkType ext v "base64".data ver = none
            ↔ ∃ s, v = some (.str s) ∧ isBase64 s = true)
        ∧ (checkType ext v "str".data ver = none ↔ ∃ s, v = some (.str s)))
    ∧ (∀ (v : Option JsonValue) ver ty,
        ty ∉ ["bool".data, "int".data, "uint".data, "float".data, "addr".data,
          "hex".data, "hash".data, "base64".data, "json".data, "id".data] →
        checkType ext v ty ver = checkType ext v "str".data ver)
    ∧ (∀ parsed tpl ver,
        verifyTemplate ext parsed tpl ver = none
          ↔ ∃ payload, payloadObj parsed = some payload
              ∧ (∀ p ∈ payload, (tpl.find? (fun q => q.1 == p.1)).isSome = true)
              ∧ ∀ kt ∈ tpl, verifyKey ext payload kt.1 kt.2 ver = none) := by
  refine ⟨?_, ?_, ?_, ?_, ?_⟩
  · intro parsed tpl ver
    unfold verifyTemplate
    rcases hobj : payloadObj parsed with _ | payload
    · simp
    · simp only [hobj]
      constructor
      · intro hcontra
        by_cases hextra :
            payload.any (fun p => ((tpl.find? (fun q => q.1 == p.1)).isNone : Bool)) = true
        · rw [if_pos hextra] at hcontra
          have := Option.some.inj hcontra
          exact absurd this (by decide)
        · rw [if_neg hextra] at hcontra
          have hpre := verifyKeys_err_prefix hcontra
          exact absurd hpre (by decide)
      · intro hcontra
        injection hcontra
  · intro parsed payload tpl ver hobj hextra
    unfold verifyTemplate
    simp only [hobj]
    obtain ⟨p, hp, hfind⟩ := hextra
    rw [if_pos (List.any_eq_true.mpr ⟨p, hp, by simp [hfind]⟩)]
  · intro v ver
    refine ⟨?_, ?_, ?_, ?_, ?_, ?_, ?_, ?_, ?_⟩
    · have e1 : checkType ext v "bool".data ver
          = if isBoolV v = true then none
            else some "Payload has invalid or missing boolean type" := rfl
      rw [e1, ← isBoolV_iff]
      by_cases hb : isBoolV v = true <;> simp [hb]
    · have e1 : checkType ext v "int".data ver
          = if isSafeIntegerV v = true then none
            else some "Payload has invalid or missing int type" := rfl
      rw [e1, ← isSafeIntegerV_iff]
      by_cases hb : isSafeIntegerV v = true <;> simp [hb]
    · have e1 : checkType ext v "uint".data ver
          = if (!isSafeIntegerV v || isNegV v) = true
            then some "Payload has invalid or missing uint type" else none := rfl
      rw [e1, ← uintOk_iff]
      rcases ha : isSafeIntegerV v <;> rcases hb : isNegV v <;> simp [ha, hb]
    · have e1 : checkType ext v "float".data ver
          = if isFiniteV v = true then none
            else some "Payload has invalid or missing float type" := rfl
      rw [e1, ← isFiniteV_iff]
      by_cases hb : isFiniteV v = true <;> simp [hb]
    · have e1 : checkType ext v "addr".data ver
          = if strSat (fun s => PublicKey.isValidAddress ext (.inl s)) v = true then none
            else some "Payload has invalid or missing address type" := rfl
      rw [e1, ← strSat_iff]
      by_cases hb : strSat (fun s => PublicKey.isValidAddress ext (.inl s)) v = true <;>
        simp [hb]
    · have e1 : checkType ext v "hex".data ver
          = if strSat isHex v = true then none
            else some "Payload has invalid or missing hex type" := rfl
      rw [e1, ← strSat_iff]
      by_cases hb : strSat isHex v = true <;> simp [hb]
    · have e1 : checkType ext v "hash".data ver
          = if strSat (fun s => s.length == 64 && isHex s) v = true then none
            else some "Payload has invalid or missing hash type" := rfl
      rw [e1, ← strSat_iff]
      by_cases hb : strSat (fun s => s.length == 64 && isHex s) v = true <;> simp [hb]
    · have e1 : checkType ext v "base64".data ver
          = if strSat isBase64 v = true then none
            else some "Payload has invalid or missing base64 type" := rfl
      rw [e1, ← strSat_iff]
      by_cases hb : strSat isBase64 v = true <;> simp [hb]
    · have e1 : checkType ext v "str".data ver
          = if strSat (fun _ => true) v = true then none
            else some "Payload has invalid or missing string type" := rfl
      rw [e1]
      have e2 := strSat_iff (fun _ => true) v
      simp only [and_true] at e2
      rw [← e2]
      by_cases hb : strSat (fun _ => true) v = true <;> simp [hb]
  · exact checkType_unknown ext
  · intro parsed tpl ver
    unfold verifyTemplate
    rcases hobj : payloadObj parsed with _ | payload
    · constructor
      · intro hcontra
        exact Option.noConfusion hcontra
      · rintro ⟨payload, hpl, -, -⟩
        exact Option.noConfusion hpl
    · simp only [hobj]
      by_cases hextra :
          payload.any (fun p => ((tpl.find? (fun q => q.1 == p.1)).isNone : Bool)) = true
      · rw [if_pos hextra]
        obtain ⟨p, hp, hnone⟩ := List.any_eq_true.mp hextra
        constructor
        · intro hcontra
          injection hcontra
        · rintro ⟨payload2, hpl2, hall, -⟩
          obtain rfl := Option.some.inj hpl2
          have hsome := hall p hp
          obtain ⟨q, hq⟩ := Option.isSome_iff_exists.mp hsome
          have hisnone : (tpl.find? (fun r => r.1 == p.1)).isNone = true := hnone
          rw [hq] at hisnone
          simp at hisnone
      · rw [if_neg hextra]
        rw [verifyKeys_none_iff]
        constructor
        · intro hall
          refine ⟨payload, rfl, ?_, hall⟩
          intro p hp
          by_contra hng
          apply hextra
          refine List.any_eq_true.mpr ⟨p, hp, ?_⟩
          simp only [Option.isNone_iff_eq_none]
          rcases hfind : tpl.find? (fun q => q.1 == p.1) with _ | val
          · exact hfind
          · rw [hfind] at hng
            simp at hng
        · rintro ⟨payload2, hpl2, -, hall⟩
          obtain rfl := Option.some.inj hpl2
          exact hall

/-- Witness for claim C6: the extra-key worked example of the spec. -/
theorem verifyTemplate_spec_witness :
    verifyTemplate ext0 (some (.obj [("extrakey".data, .str [])])) [] 2
      = some "Payload has extra key." :=
  (verifyTemplate_spec ext0).2.1 (some (.obj [("extrakey".data, .str [])]))
    [("extrakey".data, .str [])] [] 2 rfl
    ⟨("extrakey".data, .str []), by simp, rfl⟩

/-! ### Version dependence of the template checks -/

theorem q_suffix_getLast (ty : List Char) : (ty ++ ['?']).getLast? = some '?' := by
  simp

theorem q_suffix_not_array (ty : List Char) :
    ¬ "Array".data.isSuffixOf (ty ++ ['?']) = true := by
  intro h
  rw [List.isSuffixOf_iff_suffix] at h
  obtain ⟨t, ht⟩ := h
  have h1 : (ty ++ ['?']).getLast? = some '?' := q_suffix_getLast ty
  rw [← ht, List.getLast?_append] at h1
  rw [show ("Array".data.getLast?.or t.getLast?) = some 'y' from rfl] at h1
  exact absurd h1 (by decide)

theorem q_suffix_take (ty : List Char) :
    (ty ++ ['?']).take ((ty ++ ['?']).length - 1) = ty := by
  have h : (ty ++ ['?']).length - 1 = ty.length := by simp
  rw [h, List.take_left]

theorem q_suffix_unknown (ext : Ext) (v : Option JsonValue) (ver : Nat) (ty : List Char) :
    checkType ext v (ty ++ ['?']) ver = checkType ext v "str".data ver := by
  apply checkType_unknown
  simp only [List.mem_cons, List.mem_singleton, not_or]
  refine ⟨?_, ?_, ?_, ?_, ?_, ?_, ?_, ?_, ?_, ?_, by simp⟩
  all_goals
    intro he
    have h1 : (ty ++ ['?']).getLast? = some '?' := q_suffix_getLast ty
    rw [he] at h1
    exact absurd h1 (by decide)

/-- Claim C7: the `json` type accepts only a parseable string in version 1
and performs no check in version 2; the `id` type accepts any string in
version 1 and only a 32-character hex string in version 2; a type ending
in `?` makes the field optional (absent passes, present checked against the
base) only when the version is not 1, while in version 1 the whole tag is
unknown to the dispatcher and is checked as a required string. -/
theorem version_dependent_template (ext : Ext) :
    (∀ v : Option JsonValue, checkType ext v "json".data 2 = none)
    ∧ (∀ v : Option JsonValue, checkType ext v "json".data 1 = none
        ↔ ∃ s, v = some (.str s) ∧ ext.jsonParseOk (String.mk s) = true)
    ∧ (∀ v : Option JsonValue, checkType ext v "id".data 1 = none
        ↔ ∃ s, v = some (.str s))
    ∧ (∀ v : Option JsonValue, checkType ext v "id".data 2 = none
        ↔ ∃ s, v = some (.str s) ∧ s.length = 32 ∧ isHex s = true)
    ∧ (∀ payload key ty, verifyKey ext payload key (ty ++ ['?']) 2
        = match lookupKey payload key with
          | none => none
          | some v => checkType ext (some v) ty 2)
    ∧ (∀ payload key ty, verifyKey ext payload key (ty ++ ['?']) 1
        = checkType ext (lookupKey payload key) "str".data 1) := by
  refine ⟨fun v => rfl, ?_, ?_, ?_, ?_, ?_⟩
  · intro v
    have e1 : checkType ext v "json".data 1
        = if strSat (fun s => ext.jsonParseOk (String.mk s)) v = true then none
          else some "Payload has invalid or missing json type" := rfl
    rw [e1, ← strSat_iff]
    by_cases hb : strSat (fun s => ext.jsonParseOk (String.mk s)) v = true <;> simp [hb]
  · intro v
    have e1 : checkType ext v "id".data 1
        = if strSat (fun _ => true) v = true then none
          else some "Payload has invalid or missing id type" := rfl
    rw [e1]
    have e2 := strSat_iff (fun _ => true) v
    simp only [and_true] at e2
    rw [← e2]
    by_cases hb : strSat (fun _ => true) v = true <;> simp [hb]
  · intro v
    have e1 : checkType ext v "id".data 2
        = if strSat (fun s => s.length == 32 && isHex s) v = true then none
          else some "Payload has invalid or missing id type" := rfl
    rw [e1]
    have e2 := strSat_iff (fun s => s.length == 32 && isHex s) v
    simp only [Bool.and_eq_true, beq_iff_eq] at e2
    rw [← e2]
    by_cases hb : strSat (fun s => s.length == 32 && isHex s) v = true <;> simp [hb]
  · intro payload key ty
    unfold verifyKey
    dsimp only
    rw [if_neg (q_suffix_not_array ty),
      if_pos (show (ty ++ ['?']).getLast? = some '?' ∧ (2 : Nat) ≠ 1 from
        ⟨q_suffix_getLast ty, by decide⟩)]
    rw [q_suffix_take ty]
  · intro payload key ty
    unfold verifyKey
    dsimp only
    rw [if_neg (q_suffix_not_array ty),
      if_neg (show ¬ ((ty ++ ['?']).getLast? = some '?' ∧ (1 : Nat) ≠ 1) by simp)]
    exact q_suffix_unknown ext (lookupKey payload key) 1 ty

end Validana

namespace Validana

/-! ## Outcome state of Basic.processTx (basic.ts)

The static outcome fields of `Basic` observed by the final status mapping:
the retry flag, the first invalid reason, the first reject reason and the
contract result.  The error and exit-code fields only drive logging and
shutdown and are not part of the status mapping. -/

structure TxState where
  txShouldRetry : Bool
  txInvalidReason : Option String
  txRejectReason : Option String
  txAcceptReason : Option String
deriving DecidableEq

/-- The five statuses of `ProcessTxResult`. -/
inductive TxResultStatus where
  | accepted | rejected | invalid | v1Rejected | retry
deriving DecidableEq

namespace Basic

/-- `Basic.reject`: only the first reject reason is kept; a non-string
reason (`none`) becomes the fixed unknown-reason text. -/
def reject (reason : Option String) (s : TxState) : TxState :=
  if s.txRejectReason = none then
    { s with txRejectReason := some (reason.getD "Unknown reject reason") }
  else s

/-- `Basic.invalidate`: only the first invalid reason counts, and it fixes
the retry flag at the same time. -/
def invalidate (reason : String) (retry : Bool) (s : TxState) : TxState :=
  if s.txInvalidReason = none then
    { s with txInvalidReason := some reason, txShouldRetry := retry }
  else s

/-- The special-contract block of `finishProcessingTx`: a reject reason of
the reserved create or delete contract is promoted through `invalidate`. -/
def promoteReject (isSpecial : Bool) (s : TxState) : TxState :=
  if isSpecial then
    match s.txRejectReason with
    | some r => invalidate r false s
    | none => s
  else s

/-- The replacement of a non-string user contract result performed in
`processTx` before `finishProcessingTx` runs. -/
def recordContractResult : Option JsonValue → String
  | some (.str s) => String.mk s
  | _ => "Unknown result type"

/-- The status mapping at the end of `finishProcessingTx` (the non-null
assertion of the source on the accept reason is modelled by an empty
default). -/
def finishProcessingTx (isSpecial : Bool) (version : Nat) (s : TxState) :
    TxResultStatus × String :=
  let s2 := promoteReject isSpecial s
  if s2.txShouldRetry then (.retry, "")
  else
    match s2.txInvalidReason with
    | some r => (.invalid, r)
    | none =>
      match s2.txRejectReason with
      | some r => (.rejected, r)
      | none =>
        if version = 1 ∧ s2.txAcceptReason ≠ some "OK" then
          (.v1Rejected, s2.txAcceptReason.getD "")
        else (.accepted, s2.txAcceptReason.getD "")

end Basic

/-- Claim C8: the final status follows the precedence retry, invalid,
rejected, v1Rejected (version 1 with a result other than OK, non-string
results having been replaced by the unknown-result text), accepted; a
reject reason of the reserved create or delete contract is promoted to an
invalid reason before the mapping; and for each of the invalid and the
reject reason only the first recorded value is kept. -/
theorem finishProcessingTx_spec :
    (∀ (isSpecial : Bool) (ver : Nat) (s : TxState),
      ((Basic.promoteReject isSpecial s).txShouldRetry = true →
          Basic.finishProcessingTx isSpecial ver s = (.retry, ""))
      ∧ (∀ r, (Basic.promoteReject isSpecial s).txShouldRetry = false →
          (Basic.promoteReject isSpecial s).txInvalidReason = some r →
          Basic.finishProcessingTx isSpecial ver s = (.invalid, r))
      ∧ (∀ r, (Basic.promoteReject isSpecial s).txShouldRetry = false →
          (Basic.promoteReject isSpecial s).txInvalidReason = none →
          (Basic.promoteReject isSpecial s).txRejectReason = some r →
          Basic.finishProcessingTx isSpecial ver s = (.rejected, r))
      ∧ (∀ m, (Basic.promoteReject isSpecial s).txShouldRetry = false →
          (Basic.promoteReject isSpecial s).txInvalidReason = none →
          (Basic.promoteReject isSpecial s).txRejectReason = none →
          ver = 1 → (Basic.promoteReject isSpecial s).txAcceptReason = some m →
          m ≠ "OK" →
          Basic.finishProcessingTx isSpecial ver s = (.v1Rejected, m))
      ∧ (∀ m, (Basic.promoteReject isSpecial s).txShouldRetry = false →
          (Basic.promoteReject isSpecial s).txInvalidReason = none →
          (Basic.promoteReject isSpecial s).txRejectReason = none →
          (ver ≠ 1 ∨ m = "OK") →
          (Basic.promoteReject isSpecial s).txAcceptReason = some m →
          Basic.finishProcessingTx isSpecial ver s = (.accepted, m)))
    ∧ (∀ (s : TxState) (r : String), s.txInvalidReason = none →
        s.txRejectReason = some r →
        (Basic.promoteReject true s).txInvalidReason = some r
        ∧ (Basic.promoteReject true s).txShouldRetry = false)
    ∧ (∀ (s : TxState) (r : String) (r2 : String) (t : Bool),
        s.txInvalidReason = some r → Basic.invalidate r2 t s = s)
    ∧ (∀ (s : TxState) (r : String) (r2 : Option String),
        s.txRejectReason = some r → Basic.reject r2 s = s)
    ∧ (∀ (s : TxState) (r : String) (t : Bool), s.txInvalidReason = none →
        (Basic.invalidate r t s).txInvalidReason = some r
        ∧ (Basic.invalidate r t s).txShouldRetry = t)
    ∧ (∀ (s : TxState) (r : String), s.txRejectReason = none →
        (Basic.reject (some r) s).txRejectReason = some r)
    ∧ (∀ s : List Char, Basic.recordContractResult (some (.str s)) = String.mk s)
    ∧ (∀ v : Option JsonValue, (∀ s, v ≠ some (.str s)) →
        Basic.recordContractResult v = "Unknown result type") := by
  refine ⟨?_, ?_, ?_, ?_, ?_, ?_, fun s => rfl, ?_⟩
  · intro isSpecial ver s
    refine ⟨?_, ?_, ?_, ?_, ?_⟩
    · intro hretry
      unfold Basic.finishProcessingTx
      rw [if_pos hretry]
    · intro r hretry hinv
      unfold Basic.finishProcessingTx
      rw [if_neg (by rw [hretry]; exact Bool.false_ne_true), hinv]
    · intro r hretry hinv hrej
      unfold Basic.finishProcessingTx
      rw [if_neg (by rw [hretry]; exact Bool.false_ne_true), hinv, hrej]
    · intro m hretry hinv hrej hver hacc hm
      unfold Basic.finishProcessingTx
      rw [if_neg (by rw [hretry]; exact Bool.false_ne_true), hinv, hrej,
        if_pos ⟨hver, by rw [hacc]; simp [hm]⟩, hacc]
      rfl
    · intro m hretry hinv hrej hver hacc
      unfold Basic.finishProcessingTx
      rw [if_neg (by rw [hretry]; exact Bool.false_ne_true), hinv, hrej,
        if_neg (by rw [hacc]; rcases hver with h | h <;> simp [h]), hacc]
      rfl
  · intro s r hinv hrej
    unfold Basic.promoteReject
    rw [if_pos rfl, hrej]
    show (Basic.invalidate r false s).txInvalidReason = some r
      ∧ (Basic.invalidate r false s).txShouldRetry = false
    unfold Basic.invalidate
    rw [if_pos hinv]
    exact ⟨rfl, rfl⟩
  · intro s r r2 t hinv
    unfold Basic.invalidate
    rw [if_neg (by rw [hinv]; exact fun h => Option.noConfusion h)]
  · intro s r r2 hrej
    unfold Basic.reject
    rw [if_neg (by rw [hrej]; exact fun h => Option.noConfusion h)]
  · intro s r t hinv
    unfold Basic.invalidate
    rw [if_pos hinv]
    exact ⟨rfl, rfl⟩
  · intro s r hrej
    unfold Basic.reject
    rw [if_pos hrej]
    rfl
  · intro v hne
    unfold Basic.recordContractResult
    rcases v with _ | w
    · rfl
    · cases w with
      | str s => exact absurd rfl (hne s)
      | _ => rfl

/-- Witness for claim C8 at concrete states. -/
theorem finishProcessingTx_spec_witness :
    Basic.finishProcessingTx false 1 ⟨false, none, none, some "done"⟩
        = (.v1Rejected, "done")
    ∧ Basic.finishProcessingTx true 2 ⟨false, none, some "nope", some "OK"⟩
        = (.invalid, "nope")
    ∧ Basic.invalidate "second" true ⟨false, some "first", none, none⟩
        = ⟨false, some "first", none, none⟩ := by
  refine ⟨?_, ?_, ?_⟩
  · exact (finishProcessingTx_spec.1 false 1 ⟨false, none, none, some "done"⟩).2.2.2.1
      "done" rfl rfl rfl rfl rfl (by decide)
  · exact (finishProcessingTx_spec.1 true 2 ⟨false, none, some "nope", some "OK"⟩).2.1
      "nope" rfl rfl
  · exact finishProcessingTx_spec.2.2.1 ⟨false, some "first", none, none⟩
      "first" "second" true rfl

end Validana

namespace Validana

/-! ### Base58 and the address round trips (key.ts, spec-modelled crypto) -/

theorem base58Chars_length : base58Chars.length = 58 := by decide

theorem b58Index_chr58 : ∀ d, d < 58 → b58Index (chr58 d) = some d := by decide

theorem chr58_zero : chr58 0 = '1' := by decide

theorem b58Index_some {c : Char} {d : Nat} (h : b58Index c = some d) :
    chr58 d = c ∧ d < 58 := by
  unfold b58Index at h
  dsimp only at h
  by_cases hlt : base58Chars.indexOf c < 58
  · rw [if_pos hlt] at h
    obtain rfl := Option.some.inj h
    refine ⟨?_, hlt⟩
    have hlen : base58Chars.indexOf c < base58Chars.length := by
      rw [base58Chars_length]
      exact hlt
    unfold chr58
    rw [List.getD_eq_getElem _ _ hlen]
    exact List.getElem_indexOf hlen
  · rw [if_neg hlt] at h
    exact Option.noConfusion h

theorem b58Digits_map {ds : List Nat} (h : ∀ d ∈ ds, d < 58) :
    b58Digits (ds.map chr58) = some ds := by
  induction ds with
  | nil => rfl
  | cons d rest ih =>
    have hd := h d (List.mem_cons_self d rest)
    have hrest := ih (fun x hx => h x (List.mem_cons_of_mem _ hx))
    simp only [List.map_cons, b58Digits, b58Index_chr58 d hd, hrest]

theorem b58Digits_some : ∀ {s : List Char} {ds : List Nat},
    b58Digits s = some ds → s = ds.map chr58 ∧ ∀ d ∈ ds, d < 58
  | [], ds, h => by
    obtain rfl := Option.some.inj h
    exact ⟨rfl, by simp⟩
  | c :: rest, ds, h => by
    rw [b58Digits] at h
    cases hidx : b58Index c with
    | none =>
      simp only [hidx] at h
      exact Option.noConfusion h
    | some d =>
      cases hds : b58Digits rest with
      | none =>
        simp only [hidx, hds] at h
        exact Option.noConfusion h
      | some ds2 =>
        simp only [hidx, hds] at h
        obtain rfl := Option.some.inj h
        obtain ⟨hc, hlt⟩ := b58Index_some hidx
        obtain ⟨hr, hltr⟩ := b58Digits_some hds
        refine ⟨by rw [List.map_cons, hc, ← hr], ?_⟩
        intro x hx
        rcases List.mem_cons.mp hx with rfl | hx2
        · exact hlt
        · exact hltr x hx2

theorem czl_replicate_append (z : Nat) (t : List Nat) :
    countLeadZeros (List.replicate z 0 ++ t) = z + countLeadZeros t := by
  unfold countLeadZeros
  induction z with
  | zero => simp
  | succ n ih =>
    rw [List.replicate_succ, List.cons_append, List.takeWhile_cons]
    rw [if_pos (by decide)]
    rw [List.length_cons, ih]
    omega

theorem czl_decomp (l : List Nat) :
    l = List.replicate (countLeadZeros l) 0 ++ l.dropWhile (fun x => x == 0) := by
  have h1 : l.takeWhile (fun x => x == 0)
      = List.replicate (countLeadZeros l) 0 := by
    unfold countLeadZeros
    refine List.eq_replicate_of_mem (fun b hb => ?_)
    have hb2 := List.mem_takeWhile_imp hb
    simpa using hb2
  rw [← h1, List.takeWhile_append_dropWhile]

theorem dropWhile_zero_head {l : List Nat} {a : Nat} {t : List Nat}
    (h : l.dropWhile (fun x => x == 0) = a :: t) : a ≠ 0 := by
  induction l with
  | nil => exact List.noConfusion h
  | cons x xs ih =>
    rw [List.dropWhile_cons] at h
    by_cases hx : x = 0
    · rw [if_pos (by simp [hx])] at h
      exact ih h
    · rw [if_neg (by simp [hx])] at h
      obtain ⟨rfl, -⟩ := List.cons.inj h
      exact hx

theorem czl_eq_zero {l : List Nat} (h : ∀ x, l.head? = some x → x ≠ 0) :
    countLeadZeros l = 0 := by
  cases l with
  | nil => rfl
  | cons x t =>
    have hx := h x rfl
    unfold countLeadZeros
    rw [List.takeWhile_cons, if_neg (by simp [hx])]
    rfl

theorem czl_digits_reverse (b n : Nat) :
    countLeadZeros ((Nat.digits b n).reverse) = 0 := by
  by_cases hn : n = 0
  · subst hn
    rw [Nat.digits_zero]
    rfl
  · apply czl_eq_zero
    intro x hx
    rw [List.head?_reverse] at hx
    have hne : Nat.digits b n ≠ [] := Nat.digits_ne_nil_iff_ne_zero.mpr hn
    rw [List.getLast?_eq_getLast _ hne] at hx
    obtain rfl := Option.some.inj hx
    exact Nat.getLast_digit_ne_zero b hn

theorem ofDigits_replicate_zero (b z : Nat) :
    Nat.ofDigits b (List.replicate z 0) = 0 := by
  induction z with
  | zero => rfl
  | succ n ih =>
    rw [List.replicate_succ, Nat.ofDigits_cons, ih]
    omega

theorem digits_ofDigits_reverse {b : Nat} (hb : 1 < b) {t : List Nat}
    (hlt : ∀ x ∈ t, x < b)
    (hhead : ∀ x, t.head? = some x → x ≠ 0) :
    Nat.digits b (Nat.ofDigits b t.reverse) = t.reverse := by
  apply Nat.digits_ofDigits b hb
  · intro x hx
    exact hlt x (List.mem_reverse.mp hx)
  · intro h
    cases t with
    | nil => exact absurd rfl h
    | cons a t2 =>
      have h2 : (a :: t2).reverse.getLast? = some a := by
        rw [List.getLast?_reverse]
        rfl
      rw [List.getLast?_eq_getLast _ h] at h2
      rw [Option.some.inj h2]
      exact hhead a rfl

end Validana

namespace Validana

theorem b58_decode_encode {bs : List Nat} (hb : ∀ x ∈ bs, x < 256) :
    base58ToBinary (binaryToBase58 bs) = some bs := by
  have hN58 : ∀ d ∈ Nat.digits 58 (Nat.ofDigits 256 bs.reverse), d < 58 :=
    fun d hd => Nat.digits_lt_base (by norm_num) hd
  have hstr : binaryToBase58 bs
      = (List.replicate (countLeadZeros bs) 0
          ++ (Nat.digits 58 (Nat.ofDigits 256 bs.reverse)).reverse).map chr58 := by
    unfold binaryToBase58
    rw [List.map_append, List.map_replicate, chr58_zero]
  have hds : b58Digits (binaryToBase58 bs)
      = some (List.replicate (countLeadZeros bs) 0
          ++ (Nat.digits 58 (Nat.ofDigits 256 bs.reverse)).reverse) := by
    rw [hstr]
    apply b58Digits_map
    intro d hd
    rcases List.mem_append.mp hd with h1 | h1
    · rw [List.eq_of_mem_replicate h1]
      norm_num
    · exact hN58 d (List.mem_reverse.mp h1)
  rw [base58ToBinary, hds]
  refine congrArg some ?_
  have hdec := czl_decomp bs
  have hrev : bs.reverse
      = (bs.dropWhile (fun x => x == 0)).reverse
          ++ List.replicate (countLeadZeros bs) 0 := by
    conv_lhs => rw [hdec]
    rw [List.reverse_append, List.reverse_replicate]
  have hN : Nat.ofDigits 256 bs.reverse
      = Nat.ofDigits 256 (bs.dropWhile (fun x => x == 0)).reverse := by
    rw [hrev, Nat.ofDigits_append, ofDigits_replicate_zero]
    omega
  have htlt : ∀ x ∈ bs.dropWhile (fun x => x == 0), x < 256 := by
    intro x hx
    refine hb x ?_
    rw [hdec]
    exact List.mem_append_right _ hx
  have hthead : ∀ x, (bs.dropWhile (fun x => x == 0)).head? = some x → x ≠ 0 := by
    intro x hx
    cases hdw : bs.dropWhile (fun x => x == 0) with
    | nil =>
      rw [hdw] at hx
      exact Option.noConfusion hx
    | cons a t =>
      rw [hdw] at hx
      obtain rfl := Option.some.inj hx
      exact dropWhile_zero_head hdw
  have hdig : Nat.digits 256 (Nat.ofDigits 256 bs.reverse)
      = (bs.dropWhile (fun x => x == 0)).reverse := by
    rw [hN]
    exact digits_ofDigits_reverse (by norm_num) htlt hthead
  have hczl : countLeadZeros (List.replicate (countLeadZeros bs) 0
      ++ (Nat.digits 58 (Nat.ofDigits 256 bs.reverse)).reverse)
      = countLeadZeros bs := by
    rw [czl_replicate_append, czl_digits_reverse]
    omega
  have hofd : Nat.ofDigits 58 ((List.replicate (countLeadZeros bs) 0
      ++ (Nat.digits 58 (Nat.ofDigits 256 bs.reverse)).reverse).reverse)
      = Nat.ofDigits 256 bs.reverse := by
    rw [List.reverse_append, List.reverse_reverse, List.reverse_replicate,
      Nat.ofDigits_append, ofDigits_replicate_zero, Nat.ofDigits_digits]
    omega
  rw [hczl, hofd, hdig, List.reverse_reverse]
  exact hdec.symm

theorem b58_encode_decode {s : List Char} {dec : List Nat}
    (h : base58ToBinary s = some dec) : binaryToBase58 dec = s := by
  rw [base58ToBinary] at h
  cases hds : b58Digits s with
  | none =>
    rw [hds] at h
    exact Option.noConfusion h
  | some ds =>
    rw [hds] at h
    obtain rfl := (Option.some.inj h).symm
    obtain ⟨hmap, hlt⟩ := b58Digits_some hds
    have hdec := czl_decomp ds
    have hrev : ds.reverse
        = (ds.dropWhile (fun x => x == 0)).reverse
            ++ List.replicate (countLeadZeros ds) 0 := by
      conv_lhs => rw [hdec]
      rw [List.reverse_append, List.reverse_replicate]
    have hM : Nat.ofDigits 58 ds.reverse
        = Nat.ofDigits 58 (ds.dropWhile (fun x => x == 0)).reverse := by
      rw [hrev, Nat.ofDigits_append, ofDigits_replicate_zero]
      omega
    have htlt : ∀ x ∈ ds.dropWhile (fun x => x == 0), x < 58 := by
      intro x hx
      refine hlt x ?_
      rw [hdec]
      exact List.mem_append_right _ hx
    have hthead : ∀ x, (ds.dropWhile (fun x => x == 0)).head? = some x → x ≠ 0 := by
      intro x hx
      cases hdw : ds.dropWhile (fun x => x == 0) with
      | nil =>
        rw [hdw] at hx
        exact Option.noConfusion hx
      | cons a t =>
        rw [hdw] at hx
        obtain rfl := Option.some.inj hx
        exact dropWhile_zero_head hdw
    have hdig58 : Nat.digits 58 (Nat.ofDigits 58 ds.reverse)
        = (ds.dropWhile (fun x => x == 0)).reverse := by
      rw [hM]
      exact digits_ofDigits_reverse (by norm_num) htlt hthead
    unfold binaryToBase58
    have hczl : countLeadZeros (List.replicate (countLeadZeros ds) 0
        ++ (Nat.digits 256 (Nat.ofDigits 58 ds.reverse)).reverse)
        = countLeadZeros ds := by
      rw [czl_replicate_append, czl_digits_reverse]
      omega
    have hofd : Nat.ofDigits 256 ((List.replicate (countLeadZeros ds) 0
        ++ (Nat.digits 256 (Nat.ofDigits 58 ds.reverse)).reverse).reverse)
        = Nat.ofDigits 58 ds.reverse := by
      rw [List.reverse_append, List.reverse_reverse, List.reverse_replicate,
        Nat.ofDigits_append, ofDigits_replicate_zero, Nat.ofDigits_digits]
      omega
    rw [hczl, hofd, hdig58, List.reverse_reverse, hmap]
    conv_rhs => rw [hdec]
    rw [List.map_append, List.map_replicate, chr58_zero]

end Validana

namespace Validana

theorem validStr_elim {ext : Ext} {s : List Char}
    (h : PublicKey.isValidAddressStr ext s = true) :
    ∃ dec, base58ToBinary s = some dec ∧ dec.length = 25 ∧ dec.getD 0 1 = 0
      ∧ (ext.hash256 (dec.take 21)).take 4 = dec.drop 21 := by
  unfold PublicKey.isValidAddressStr at h
  cases hb : base58ToBinary s with
  | none =>
    rw [hb] at h
    exact Bool.noConfusion h
  | some dec =>
    simp only [hb] at h
    simp only [Bool.and_eq_true, beq_iff_eq, decide_eq_true_eq] at h
    obtain ⟨⟨hlen, h0⟩, hck⟩ := h
    rw [hlen] at hck
    exact ⟨dec, rfl, hlen, h0, hck⟩

theorem validStr_intro {ext : Ext} {s : List Char} {dec : List Nat}
    (hb : base58ToBinary s = some dec) (hlen : dec.length = 25)
    (h0 : dec.getD 0 1 = 0)
    (hck : (ext.hash256 (dec.take 21)).take 4 = dec.drop 21) :
    PublicKey.isValidAddressStr ext s = true := by
  unfold PublicKey.isValidAddressStr
  simp only [hb]
  simp only [Bool.and_eq_true, beq_iff_eq, decide_eq_true_eq]
  rw [hlen]
  exact ⟨⟨rfl, h0⟩, hck⟩

theorem addressAsBuffer_ok_iff (ext : Ext) (addr : List Char ⊕ List Nat) :
    (∃ v, PublicKey.addressAsBuffer ext addr = .ok v) ↔
      PublicKey.isValidAddress ext addr = true := by
  constructor
  · rintro ⟨v, hv⟩
    by_cases hval : PublicKey.isValidAddress ext addr = true
    · exact hval
    · unfold PublicKey.addressAsBuffer at hv
      rw [if_pos hval] at hv
      exact Except.noConfusion hv
  · intro hval
    unfold PublicKey.addressAsBuffer
    rw [if_neg (not_not_intro hval)]
    cases addr with
    | inl s =>
      have hs : PublicKey.isValidAddressStr ext s = true := hval
      obtain ⟨dec, hb, -, -, -⟩ := validStr_elim hs
      simp only [hb]
      exact ⟨_, rfl⟩
    | inr b => exact ⟨b, rfl⟩

theorem addressAsString_ok_iff (ext : Ext) (addr : List Char ⊕ List Nat) :
    (∃ v, PublicKey.addressAsString ext addr = .ok v) ↔
      PublicKey.isValidAddress ext addr = true := by
  constructor
  · rintro ⟨v, hv⟩
    by_cases hval : PublicKey.isValidAddress ext addr = true
    · exact hval
    · unfold PublicKey.addressAsString at hv
      rw [if_pos hval] at hv
      exact Except.noConfusion hv
  · intro hval
    unfold PublicKey.addressAsString
    rw [if_neg (not_not_intro hval)]
    cases addr with
    | inl s => exact ⟨s, rfl⟩
    | inr b => exact ⟨_, rfl⟩

end Validana

namespace Validana

theorem address_str_to_buf {ext : Ext} {a : List Char}
    (h : PublicKey.isValidAddress ext (Sum.inl a) = true) :
    ∃ b, PublicKey.addressAsBuffer ext (Sum.inl a) = .ok b
      ∧ PublicKey.addressAsString ext (Sum.inr b) = .ok a := by
  have hs : PublicKey.isValidAddressStr ext a = true := h
  obtain ⟨dec, hb, hlen, h0, hck⟩ := validStr_elim hs
  cases dec with
  | nil => exact absurd hlen (by simp)
  | cons d0 rest =>
    have hd0 : d0 = 0 := by simpa using h0
    subst hd0
    have hrlen : rest.length = 24 := by simpa using hlen
    have h21 : (0 :: rest).take 21 = 0 :: rest.take 20 := rfl
    refine ⟨rest.take 20, ?_, ?_⟩
    · unfold PublicKey.addressAsBuffer
      rw [if_neg (not_not_intro h)]
      simp only [hb]
      rw [hlen]
      rfl
    · have hblen : (rest.take 20).length = 20 := by
        rw [List.length_take]
        omega
      have hvb : PublicKey.isValidAddress ext (Sum.inr (rest.take 20)) = true := by
        show ((rest.take 20).length == 20) = true
        rw [hblen]
        rfl
      unfold PublicKey.addressAsString
      rw [if_neg (not_not_intro hvb)]
      refine congrArg Except.ok ?_
      have hcs : (ext.hash256 (0 :: rest.take 20)).take 4 = (0 :: rest).drop 21 := by
        rw [← h21]
        exact hck
      show binaryToBase58 ((0 :: rest.take 20)
          ++ (ext.hash256 (0 :: rest.take 20)).take 4) = a
      rw [hcs]
      have hjoin : (0 :: rest.take 20) ++ (0 :: rest).drop 21 = 0 :: rest := by
        rw [← h21, List.take_append_drop]
      rw [hjoin]
      exact b58_encode_decode hb

theorem address_buf_to_str {ext : Ext}
    (hlen : ∀ x, (ext.hash256 x).length = 32)
    (hbytes : ∀ x, ∀ v ∈ ext.hash256 x, v < 256)
    {b : List Nat} (hb20 : b.length = 20) (hblt : ∀ x ∈ b, x < 256) :
    ∃ a, PublicKey.addressAsString ext (Sum.inr b) = .ok a
      ∧ PublicKey.addressAsBuffer ext (Sum.inl a) = .ok b := by
  have hvb : PublicKey.isValidAddress ext (Sum.inr b) = true := by
    show (b.length == 20) = true
    rw [hb20]
    rfl
  refine ⟨binaryToBase58 ((0 :: b) ++ (ext.hash256 (0 :: b)).take 4), ?_, ?_⟩
  · unfold PublicKey.addressAsString
    rw [if_neg (not_not_intro hvb)]
  · have hcslen : ((ext.hash256 (0 :: b)).take 4).length = 4 := by
      rw [List.length_take, hlen (0 :: b)]
      rfl
    have hdlen : ((0 :: b) ++ (ext.hash256 (0 :: b)).take 4).length = 25 := by
      rw [List.length_append, List.length_cons, hb20, hcslen]
    have hdbytes : ∀ x ∈ (0 :: b) ++ (ext.hash256 (0 :: b)).take 4, x < 256 := by
      intro x hx
      rcases List.mem_append.mp hx with h1 | h1
      · rcases List.mem_cons.mp h1 with rfl | h2
        · omega
        · exact hblt x h2
      · exact hbytes (0 :: b) x (List.mem_of_mem_take h1)
    have hdecode : base58ToBinary
        (binaryToBase58 ((0 :: b) ++ (ext.hash256 (0 :: b)).take 4))
        = some ((0 :: b) ++ (ext.hash256 (0 :: b)).take 4) :=
      b58_decode_encode hdbytes
    have h0len : (0 :: b).length = 21 := by
      rw [List.length_cons, hb20]
    have htake : ((0 :: b) ++ (ext.hash256 (0 :: b)).take 4).take 21 = 0 :: b := by
      rw [← h0len]
      exact List.take_left _ _
    have hdrop : ((0 :: b) ++ (ext.hash256 (0 :: b)).take 4).drop 21
        = (ext.hash256 (0 :: b)).take 4 := by
      rw [← h0len]
      exact List.drop_left _ _
    have h0 : ((0 :: b) ++ (ext.hash256 (0 :: b)).take 4).getD 0 1 = 0 := rfl
    have hck : (ext.hash256
        (((0 :: b) ++ (ext.hash256 (0 :: b)).take 4).take 21)).take 4
        = ((0 :: b) ++ (ext.hash256 (0 :: b)).take 4).drop 21 := by
      rw [htake, hdrop]
    have hvalid := validStr_intro hdecode hdlen h0 hck
    have hva : PublicKey.isValidAddress ext
        (Sum.inl (binaryToBase58 ((0 :: b) ++ (ext.hash256 (0 :: b)).take 4)))
        = true := hvalid
    unfold PublicKey.addressAsBuffer
    rw [if_neg (not_not_intro hva)]
    simp only [hdecode]
    rw [hdlen]
    show Except.ok ((((0 :: b) ++ (ext.hash256 (0 :: b)).take 4).take 21).drop 1)
        = Except.ok b
    rw [htake]
    rfl

end Validana

namespace Validana

/-- C9: `PublicKey.addressAsBuffer` and `PublicKey.addressAsString` accept
both the base58check string and the 20-byte buffer form of an address,
succeeding exactly on valid addresses and throwing otherwise, and they
invert each other on valid inputs: a valid string address converts to a
buffer that converts back to the same string, and a 20-byte buffer converts
to a string address that converts back to the same buffer.  The hash is
abstract; it is only assumed to produce 32 bytes below 256. -/
theorem address_roundtrip (ext : Ext)
    (hlen : ∀ x, (ext.hash256 x).length = 32)
    (hbytes : ∀ x, ∀ v ∈ ext.hash256 x, v < 256) :
    (∀ addr, ((∃ v, PublicKey.addressAsBuffer ext addr = .ok v) ↔
        PublicKey.isValidAddress ext addr = true)
      ∧ ((∃ v, PublicKey.addressAsString ext addr = .ok v) ↔
        PublicKey.isValidAddress ext addr = true))
    ∧ (∀ a, PublicKey.isValidAddress ext (Sum.inl a) = true →
        ∃ b, PublicKey.addressAsBuffer ext (Sum.inl a) = .ok b
          ∧ PublicKey.addressAsString ext (Sum.inr b) = .ok a)
    ∧ (∀ b, b.length = 20 → (∀ x ∈ b, x < 256) →
        ∃ a, PublicKey.addressAsString ext (Sum.inr b) = .ok a
          ∧ PublicKey.addressAsBuffer ext (Sum.inl a) = .ok b) := by
  refine ⟨fun addr => ⟨addressAsBuffer_ok_iff ext addr,
    addressAsString_ok_iff ext addr⟩, fun a ha => address_str_to_buf ha,
    fun b hb20 hblt => address_buf_to_str hlen hbytes hb20 hblt⟩

/-- C9 witness: the abstract hash instantiated by a constant 32-byte hash,
on the concrete 20-byte buffer of sevens. -/
theorem address_roundtrip_witness :
    ∃ a, PublicKey.addressAsString ext0 (Sum.inr (List.replicate 20 7)) = .ok a
      ∧ PublicKey.addressAsBuffer ext0 (Sum.inl a)
          = .ok (List.replicate 20 7) :=
  (address_roundtrip ext0 (fun _ => rfl)
      (fun _ v hv => by rw [List.eq_of_mem_replicate hv]; decide)).2.2
    (List.replicate 20 7) rfl
    (fun x hx => by rw [List.eq_of_mem_replicate hx]; decide)

end Validana
